import Mathlib

/-!
Shallow embedding of the fintech-banking-system transaction core:
the double-entry ledger service (src/modules/ledger/ledger.service.ts),
the wallets service (src/modules/wallets/wallets.controller.ts) and the
transaction engine (transactions.service.ts).  JavaScript Maps are
modelled as association lists, JS numbers as rationals, uuid generation
as a deterministic counter threaded through the state, and Date values
as natural-number instants passed to each operation.
-/

namespace Fintech

/-- Association-list model of a JavaScript Map: lookup of the first binding. -/
def mapGet {α : Type} : List (String × α) → String → Option α
  | [], _ => none
  | (k, v) :: rest, key => if k = key then some v else mapGet rest key

/-- Association-list model of Map.set: replace in place, else append a binding. -/
def mapSet {α : Type} : List (String × α) → String → α → List (String × α)
  | [], key, v => [(key, v)]
  | (k, w) :: rest, key, v =>
    if k = key then (key, v) :: rest else (k, w) :: mapSet rest key v

/-- Association-list model of Map.delete. -/
def mapDelete {α : Type} : List (String × α) → String → List (String × α)
  | [], _ => []
  | (k, v) :: rest, key =>
    if k = key then mapDelete rest key else (k, v) :: mapDelete rest key

/-! ## Ledger data model (src/common/interfaces/ledger.interface.ts) -/

inductive LedgerAccountType where
  | ASSET
  | LIABILITY
  | EQUITY
  | REVENUE
  | EXPENSE
deriving DecidableEq

inductive LedgerEntryType where
  | DEBIT
  | CREDIT
deriving DecidableEq

structure LedgerAccount where
  id : String
  name : String
  type : LedgerAccountType
  currency : String
  balance : Rat
  isLocked : Bool
  createdAt : Nat
  updatedAt : Nat
deriving DecidableEq

structure LedgerEntry where
  id : String
  transactionId : String
  accountId : String
  type : LedgerEntryType
  amount : Rat
  currency : String
  balance : Rat
  description : String
  createdAt : Nat
deriving DecidableEq

inductive LedgerTxStatus where
  | PENDING
  | COMPLETED
  | FAILED
  | REVERSED
deriving DecidableEq

structure LedgerTransaction where
  id : String
  idempotencyKey : String
  reference : String
  description : String
  totalAmount : Rat
  currency : String
  entries : List LedgerEntry
  status : LedgerTxStatus
  createdAt : Nat
  completedAt : Nat
deriving DecidableEq

/-- Input shape of one element of the entries array passed to createTransaction. -/
structure EntryInput where
  accountId : String
  type : LedgerEntryType
  amount : Rat
deriving DecidableEq

/-- The entry-input triple carried by a stored ledger entry. -/
def inputOfEntry (le : LedgerEntry) : EntryInput :=
  { accountId := le.accountId, type := le.type, amount := le.amount }

/-- Errors thrown by LedgerService, named after the error taxonomy of the design.
insufficientBalance carries the accountId of the entry whose application failed. -/
inductive LedgerErr where
  | accountNotFound (accountId : String)
  | accountLocked (accountId : String)
  | unbalancedEntries
  | insufficientBalance (accountId : String)
  | transactionNotFound (transactionId : String)
  | alreadyReversed
  | internalError
deriving DecidableEq

/-- The private in-process state of LedgerService. -/
structure LedgerState where
  accounts : List (String × LedgerAccount)
  entries : List LedgerEntry
  transactions : List (String × LedgerTransaction)
  idempotencyKeys : List (String × String)
  locks : List (String × Bool)
  nextId : Nat
deriving DecidableEq

/-- Deterministic stand-in for uuidv4 inside the ledger service. -/
def freshLedgerId (n : Nat) : String := "lid-" ++ toString n

/-- JS new Set iteration order: first occurrence of each accountId. -/
def uniqueFirst : List String → List String
  | [] => []
  | a :: rest => a :: uniqueFirst (rest.filter (fun b => b ≠ a))
  termination_by l => l.length
  decreasing_by
    simp only [List.length_cons]
    exact Nat.lt_succ_of_le (List.length_filter_le _ _)

/-- shouldIncreaseBalance from ledger.service.ts: asset and expense accounts
grow on debits, the other account types grow on credits. -/
def shouldIncreaseBalance (acctType : LedgerAccountType) (entryType : LedgerEntryType) : Bool :=
  match acctType with
  | .ASSET | .EXPENSE => entryType = .DEBIT
  | _ => entryType = .CREDIT

/-- The signed balance delta an entry applies to its account. -/
def entryDelta (acct : LedgerAccount) (e : EntryInput) : Rat :=
  if shouldIncreaseBalance acct.type e.type then acct.balance + e.amount
  else acct.balance - e.amount

/-- lockAccount applied to each affected account in order; throws on the first
account whose lock flag is already set.  Returns the partially locked state on
failure, matching the persisted mutations of the thrown-through JS loop. -/
def lockAll : LedgerState → List String → Option LedgerErr × LedgerState
  | s, [] => (none, s)
  | s, a :: rest =>
    if (mapGet s.locks a).getD false then (some (.accountLocked a), s)
    else lockAll { s with locks := mapSet s.locks a true } rest

/-- unlockAccount applied to every affected account (the finally block). -/
def unlockAll (s : LedgerState) (accts : List String) : LedgerState :=
  accts.foldl (fun t a => { t with locks := mapDelete t.locks a }) s

def totalDebits (entries : List EntryInput) : Rat :=
  ((entries.filter (fun e => e.type = .DEBIT)).map (fun e => e.amount)).sum

def totalCredits (entries : List EntryInput) : Rat :=
  ((entries.filter (fun e => e.type = .CREDIT)).map (fun e => e.amount)).sum

/-- The account-existence validation loop: first entry whose account is absent. -/
def findMissing (s : LedgerState) : List EntryInput → Option String
  | [] => none
  | e :: rest =>
    match mapGet s.accounts e.accountId with
    | none => some e.accountId
    | some _ => findMissing s rest

/-- The ledger entry record created for one entry of the group. -/
def mkLedgerEntry (txId desc : String) (now : Nat) (s : LedgerState)
    (e : EntryInput) (acct : LedgerAccount) : LedgerEntry :=
  { id := freshLedgerId s.nextId
    transactionId := txId
    accountId := e.accountId
    type := e.type
    amount := e.amount
    currency := acct.currency
    balance := entryDelta acct e
    description := desc
    createdAt := now }

/-- The state mutation performed for one validated entry: append the ledger
entry and write the new account balance. -/
def applyStep (txId desc : String) (now : Nat) (s : LedgerState)
    (e : EntryInput) (acct : LedgerAccount) : LedgerState :=
  { s with
    entries := s.entries ++ [mkLedgerEntry txId desc now s e acct]
    accounts := mapSet s.accounts e.accountId
      { acct with balance := entryDelta acct e, updatedAt := now }
    nextId := s.nextId + 1 }

/-- The entry-application loop of createTransaction.  For each entry in order:
resolve the account, compute the new balance, reject if an ASSET account would
go negative, otherwise append the ledger entry and mutate the account balance.
On rejection the mutations already performed persist (they were applied to the
service state before the throw). -/
def applyEntries (txId desc : String) (now : Nat) :
    LedgerState → List EntryInput → Except LedgerErr (List LedgerEntry) × LedgerState
  | s, [] => (.ok [], s)
  | s, e :: rest =>
    match mapGet s.accounts e.accountId with
    | none => (.error .internalError, s)
    | some acct =>
      if acct.type = .ASSET ∧ entryDelta acct e < 0 then
        (.error (.insufficientBalance e.accountId), s)
      else
        match applyEntries txId desc now (applyStep txId desc now s e acct) rest with
        | (.ok les, s2) => (.ok (mkLedgerEntry txId desc now s e acct :: les), s2)
        | (.error er, s2) => (.error er, s2)

/-- The body of createTransaction after the idempotency short-circuit:
generate a transaction id, lock the affected accounts, validate the
debit/credit totals and account existence, apply the entries, record the
transaction, and unlock the affected accounts on every exit path. -/
def createTransactionFresh (s : LedgerState)
    (idempotencyKey reference description : String)
    (entries : List EntryInput) (now : Nat) :
    Except LedgerErr LedgerTransaction × LedgerState :=
  let txId := freshLedgerId s.nextId
  let s0 : LedgerState := { s with nextId := s.nextId + 1 }
  let affected := uniqueFirst (entries.map (fun e => e.accountId))
  match lockAll s0 affected with
  | (some e, s1) => (.error e, unlockAll s1 affected)
  | (none, s1) =>
    let d := totalDebits entries
    let c := totalCredits entries
    if |d - c| > 1 / 100 then (.error .unbalancedEntries, unlockAll s1 affected)
    else
      match findMissing s1 entries with
      | some aid => (.error (.accountNotFound aid), unlockAll s1 affected)
      | none =>
        match applyEntries txId description now s1 entries with
        | (.error e, s2) => (.error e, unlockAll s2 affected)
        | (.ok les, s2) =>
          match entries with
          | [] => (.error .internalError, unlockAll s2 affected)
          | e0 :: _ =>
            match mapGet s2.accounts e0.accountId with
            | none => (.error .internalError, unlockAll s2 affected)
            | some acct0 =>
              let tx : LedgerTransaction :=
                { id := txId
                  idempotencyKey := idempotencyKey
                  reference := reference
                  description := description
                  totalAmount := d
                  currency := acct0.currency
                  entries := les
                  status := .COMPLETED
                  createdAt := now
                  completedAt := now }
              let s3 : LedgerState :=
                { s2 with
                  transactions := mapSet s2.transactions txId tx
                  idempotencyKeys := mapSet s2.idempotencyKeys idempotencyKey txId }
              (.ok tx, unlockAll s3 affected)

/-- createTransaction from ledger.service.ts, including the idempotency
short-circuit that returns the already-posted transaction unchanged. -/
def createTransaction (s : LedgerState)
    (idempotencyKey reference description : String)
    (entries : List EntryInput) (now : Nat) :
    Except LedgerErr LedgerTransaction × LedgerState :=
  match mapGet s.idempotencyKeys idempotencyKey with
  | some txId =>
    match mapGet s.transactions txId with
    | some tx => (.ok tx, s)
    | none => createTransactionFresh s idempotencyKey reference description entries now
  | none => createTransactionFresh s idempotencyKey reference description entries now

/-- Flip DEBIT and CREDIT, as reverseTransaction does per entry. -/
def flipType : LedgerEntryType → LedgerEntryType
  | .DEBIT => .CREDIT
  | .CREDIT => .DEBIT

/-- The derived idempotency key used by reverseTransaction. -/
def reversalKey (originalTransactionId : String) (now : Nat) : String :=
  "reversal-" ++ originalTransactionId ++ "-" ++ toString now

/-- reverseTransaction from ledger.service.ts: look up the original, reject an
already reversed transaction, post the mirror-image entry set under a derived
idempotency key, then mark the original as REVERSED.  If the mirror posting
throws, the error propagates and the original is left unmarked. -/
def reverseTransaction (s : LedgerState) (originalTransactionId reason : String)
    (now : Nat) : Except LedgerErr LedgerTransaction × LedgerState :=
  match mapGet s.transactions originalTransactionId with
  | none => (.error (.transactionNotFound originalTransactionId), s)
  | some originalTx =>
    if originalTx.status = .REVERSED then (.error .alreadyReversed, s)
    else
      let reversalEntries := originalTx.entries.map (fun entry =>
        { accountId := entry.accountId
          type := flipType entry.type
          amount := entry.amount : EntryInput })
      match createTransaction s (reversalKey originalTransactionId now)
          ("REV-" ++ originalTx.reference) ("Reversal: " ++ reason)
          reversalEntries now with
      | (.error e, s1) => (.error e, s1)
      | (.ok revTx, s1) =>
        let s2 : LedgerState :=
          { s1 with
            transactions := mapSet s1.transactions originalTransactionId
              { originalTx with status := .REVERSED } }
        (.ok revTx, s2)

/-- The ASSET-account invariant of the data model: no ASSET account balance is
negative. -/
def assetInv (s : LedgerState) : Prop :=
  ∀ p ∈ s.accounts, p.2.type = LedgerAccountType.ASSET → 0 ≤ p.2.balance
/-- The mirror image of one entry input, used to state reversal facts. -/
def flipEntryInput (e : EntryInput) : EntryInput :=
  { accountId := e.accountId, type := flipType e.type, amount := e.amount }

/-! ## Domain transaction data model (src/common/interfaces/transaction.interface.ts) -/

inductive TransactionStatus where
  | PENDING
  | PROCESSING
  | COMPLETED
  | FAILED
  | CANCELLED
  | REVERSED
deriving DecidableEq

inductive TransactionType where
  | DEPOSIT
  | WITHDRAWAL
  | TRANSFER
  | TRADE
  | FEE
  | REFUND
deriving DecidableEq

inductive AssetType where
  | FIAT
  | CRYPTO
deriving DecidableEq

structure Transaction where
  id : String
  idempotencyKey : String
  userId : Nat
  type : TransactionType
  assetType : AssetType
  amount : Rat
  currency : String
  fee : Rat
  status : TransactionStatus
  fromWalletId : Option Nat
  toWalletId : Option Nat
  fromAddress : Option String
  toAddress : Option String
  externalReference : Option String
  description : Option String
  errorMessage : Option String
  createdAt : Nat
  updatedAt : Nat
  completedAt : Option Nat
  cancelledAt : Option Nat
deriving DecidableEq

structure TransactionLock where
  transactionId : String
  walletId : Nat
  amount : Rat
  lockedAt : Nat
  expiresAt : Nat
deriving DecidableEq

structure CreateTransactionDto where
  idempotencyKey : String
  type : TransactionType
  assetType : AssetType
  amount : Rat
  currency : String
  fee : Option Rat
  fromWalletId : Option Nat
  toWalletId : Option Nat
  fromAddress : Option String
  toAddress : Option String
  externalReference : Option String
  description : Option String
deriving DecidableEq

/-! ## Wallets service (src/modules/wallets/wallets.controller.ts) -/

inductive WalletStatus where
  | ACTIVE
  | FROZEN
  | CLOSED
deriving DecidableEq

inductive WalletType where
  | FIAT
  | CRYPTO
deriving DecidableEq

structure Wallet where
  id : Nat
  userId : Nat
  currency : String
  type : WalletType
  balance : Rat
  status : WalletStatus
  createdAt : Nat
  updatedAt : Nat
deriving DecidableEq

/-- WalletsService.findOne: first wallet with the given id, none models the
thrown NotFoundException. -/
def findWallet : List Wallet → Nat → Option Wallet
  | [], _ => none
  | w :: rest, wid => if w.id = wid then some w else findWallet rest wid

/-- Replace the balance of the first wallet with the given id. -/
def setWalletBalance : List Wallet → Nat → Rat → Nat → List Wallet
  | [], _, _, _ => []
  | w :: rest, wid, nb, now =>
    if w.id = wid then { w with balance := nb, updatedAt := now } :: rest
    else w :: setWalletBalance rest wid nb now

/-! ## Transaction engine (transactions.service.ts) -/

/-- Errors thrown by the engine, named after the error taxonomy of the design:
validationError models BadRequestException, insufficientBalance the balance
ConflictException, resourceLocked the wallet-lock ConflictException,
invalidStateTransition the cancel ConflictException, notFoundError
NotFoundException, unsupportedType the generic Error of the default branch,
and ledgerError wraps an error thrown by the ledger service. -/
inductive EngineErr where
  | validationError (msg : String)
  | insufficientBalance
  | resourceLocked (walletId : Nat)
  | invalidStateTransition (status : TransactionStatus)
  | notFoundError (what : String)
  | unsupportedType
  | ledgerError (e : LedgerErr)
deriving DecidableEq

/-- The message string captured into Transaction.errorMessage by the catch block. -/
def errMessage : EngineErr → String
  | .validationError msg => msg
  | .insufficientBalance => "Insufficient balance"
  | .resourceLocked wid => "Wallet " ++ toString wid ++ " is locked"
  | .invalidStateTransition _ => "Cannot cancel transaction in this status"
  | .notFoundError what => what ++ " not found"
  | .unsupportedType => "Unsupported transaction type"
  | .ledgerError _ => "Ledger error"

/-- The private in-process state of TransactionsService together with its
collaborators: the wallets store, the ledger service state, and the list of
transaction ids enqueued on the processing queue. -/
structure EngineState where
  transactions : List (String × Transaction)
  idempotencyKeys : List (String × String)
  locks : List (String × TransactionLock)
  wallets : List Wallet
  ledger : LedgerState
  queue : List String
  nextId : Nat
deriving DecidableEq

/-- Deterministic stand-in for uuidv4 inside the engine. -/
def freshTxId (n : Nat) : String := "tx-" ++ toString n

/-- JS truthiness of an optional numeric wallet id: undefined and 0 are falsy. -/
def jsWalletId : Option Nat → Option Nat
  | none => none
  | some n => if n = 0 then none else some n

/-- The lock-table key used for a wallet. -/
def walletKey (wid : Nat) : String := "wallet-" ++ toString wid

/-- Store an updated transaction object back into the map, modelling the JS
in-place mutation of the object held by the Map. -/
def setTx (s : EngineState) (tx : Transaction) : EngineState :=
  { s with transactions := mapSet s.transactions tx.id tx }

/-- validateTransaction from transactions.service.ts. -/
def validateTransaction (dto : CreateTransactionDto) (userId : Nat)
    (s : EngineState) : Option EngineErr :=
  if dto.amount ≤ 0 then some (.validationError "Amount must be positive")
  else
    let fromCheck : Option EngineErr :=
      match jsWalletId dto.fromWalletId with
      | none => none
      | some fw =>
        match findWallet s.wallets fw with
        | none => some (.notFoundError ("Wallet " ++ toString fw))
        | some fromWallet =>
          if fromWallet.userId ≠ userId then
            some (.validationError "Source wallet does not belong to user")
          else
            let totalRequired := dto.amount + dto.fee.getD 0
            if fromWallet.balance < totalRequired then some .insufficientBalance
            else none
    match fromCheck with
    | some e => some e
    | none =>
      let toCheck : Option EngineErr :=
        match jsWalletId dto.toWalletId with
        | none => none
        | some tw =>
          match findWallet s.wallets tw with
          | none => some (.notFoundError ("Wallet " ++ toString tw))
          | some _ =>
            if jsWalletId dto.fromWalletId = some tw then
              some (.validationError "Cannot transfer to the same wallet")
            else none
      match toCheck with
      | some e => some e
      | none =>
        match dto.type with
        | .TRANSFER =>
          if (jsWalletId dto.fromWalletId).isNone ∨ (jsWalletId dto.toWalletId).isNone then
            some (.validationError "Transfer requires both source and destination wallets")
          else none
        | .DEPOSIT =>
          if (jsWalletId dto.toWalletId).isNone then
            some (.validationError "Deposit requires destination wallet")
          else none
        | .WITHDRAWAL =>
          if (jsWalletId dto.fromWalletId).isNone then
            some (.validationError "Withdrawal requires source wallet")
          else none
        | _ => none

/-- The body of create after the idempotency short-circuit: validate, persist a
PENDING transaction, index its idempotency key, and enqueue a processing job. -/
def createFresh (dto : CreateTransactionDto) (userId : Nat) (now : Nat)
    (s : EngineState) : Except EngineErr Transaction × EngineState :=
  match validateTransaction dto userId s with
  | some e => (.error e, s)
  | none =>
    let txId := freshTxId s.nextId
    let tx : Transaction :=
      { id := txId
        idempotencyKey := dto.idempotencyKey
        userId := userId
        type := dto.type
        assetType := dto.assetType
        amount := dto.amount
        currency := dto.currency
        fee := dto.fee.getD 0
        status := .PENDING
        fromWalletId := dto.fromWalletId
        toWalletId := dto.toWalletId
        fromAddress := dto.fromAddress
        toAddress := dto.toAddress
        externalReference := dto.externalReference
        description := dto.description
        errorMessage := none
        createdAt := now
        updatedAt := now
        completedAt := none
        cancelledAt := none }
    (.ok tx,
      { s with
        transactions := mapSet s.transactions txId tx
        idempotencyKeys := mapSet s.idempotencyKeys dto.idempotencyKey txId
        queue := s.queue ++ [txId]
        nextId := s.nextId + 1 })

/-- create from transactions.service.ts, including the idempotency
short-circuit that returns the existing transaction with no side effects. -/
def create (dto : CreateTransactionDto) (userId : Nat) (now : Nat)
    (s : EngineState) : Except EngineErr Transaction × EngineState :=
  match mapGet s.idempotencyKeys dto.idempotencyKey with
  | some txId =>
    match mapGet s.transactions txId with
    | some tx => (.ok tx, s)
    | none => createFresh dto userId now s
  | none => createFresh dto userId now s

/-- acquireLocks from transactions.service.ts: lock the source wallet, then the
destination wallet when distinct; if the second acquisition conflicts, the
source lock is released before the conflict propagates. -/
def acquireLocks (tx : Transaction) (now : Nat) (s : EngineState) :
    Option EngineErr × EngineState :=
  let mkLock : String → Nat → TransactionLock := fun txid wid =>
    { transactionId := txid
      walletId := wid
      amount := tx.amount
      lockedAt := now
      expiresAt := now + 60000 }
  let afterFrom : Option EngineErr × EngineState :=
    match jsWalletId tx.fromWalletId with
    | none => (none, s)
    | some fw =>
      if (mapGet s.locks (walletKey fw)).isSome then (some (.resourceLocked fw), s)
      else
        (none, { s with locks := mapSet s.locks (walletKey fw) (mkLock tx.id fw) })
  match afterFrom with
  | (some e, s1) => (some e, s1)
  | (none, s1) =>
    match jsWalletId tx.toWalletId with
    | none => (none, s1)
    | some tw =>
      if tx.toWalletId ≠ tx.fromWalletId then
        if (mapGet s1.locks (walletKey tw)).isSome then
          let s2 :=
            match jsWalletId tx.fromWalletId with
            | some fw => { s1 with locks := mapDelete s1.locks (walletKey fw) }
            | none => s1
          (some (.resourceLocked tw), s2)
        else
          (none, { s1 with locks := mapSet s1.locks (walletKey tw) (mkLock tx.id tw) })
      else (none, s1)

/-- releaseLocks from transactions.service.ts: delete the lock-table entries
keyed by the transactions wallet ids, with no check of the stored owner. -/
def releaseLocks (tx : Transaction) (s : EngineState) : EngineState :=
  let s1 :=
    match jsWalletId tx.fromWalletId with
    | some fw => { s with locks := mapDelete s.locks (walletKey fw) }
    | none => s
  match jsWalletId tx.toWalletId with
  | some tw => { s1 with locks := mapDelete s1.locks (walletKey tw) }
  | none => s1

/-- WalletsService.updateBalance called from the engine: reject a missing
wallet or a negative resulting balance, otherwise add the delta. -/
def updateBalance (wid : Option Nat) (delta : Rat) (now : Nat) (s : EngineState) :
    Option EngineErr × EngineState :=
  match wid with
  | none => (some (.notFoundError "Wallet"), s)
  | some w =>
    match findWallet s.wallets w with
    | none => (some (.notFoundError ("Wallet " ++ toString w)), s)
    | some wallet =>
      let newBalance := wallet.balance + delta
      if newBalance < 0 then (some .insufficientBalance, s)
      else (none, { s with wallets := setWalletBalance s.wallets w newBalance now })

/-- Post one ledger transaction from a handler, wrapping a ledger error. -/
def postLedger (s : EngineState) (key ref desc : String)
    (entries : List EntryInput) (now : Nat) : Option EngineErr × EngineState :=
  match createTransaction s.ledger key ref desc entries now with
  | (.ok _, led) => (none, { s with ledger := led })
  | (.error e, led) => (some (.ledgerError e), { s with ledger := led })

/-- processDeposit: credit the destination wallet, post the principal ledger
group, then the fee group when the fee is positive. -/
def processDeposit (tx : Transaction) (now : Nat) (s : EngineState) :
    Option EngineErr × EngineState :=
  match updateBalance tx.toWalletId tx.amount now s with
  | (some e, s1) => (some e, s1)
  | (none, s1) =>
    match postLedger s1 tx.idempotencyKey ("TXN-" ++ tx.id)
        ("Deposit: " ++ toString tx.amount ++ " " ++ tx.currency)
        [ { accountId := walletKey (tx.toWalletId.getD 0), type := .CREDIT, amount := tx.amount }
        , { accountId := "bank-clearing", type := .DEBIT, amount := tx.amount } ] now with
    | (some e, s2) => (some e, s2)
    | (none, s2) =>
      if 0 < tx.fee then
        match postLedger s2 (tx.idempotencyKey ++ "-fee") ("FEE-" ++ tx.id)
            ("Deposit fee: " ++ toString tx.fee ++ " " ++ tx.currency)
            [ { accountId := walletKey (tx.toWalletId.getD 0), type := .DEBIT, amount := tx.fee }
            , { accountId := "fee-revenue", type := .CREDIT, amount := tx.fee } ] now with
        | (some e, s3) => (some e, s3)
        | (none, s3) => (none, s3)
      else (none, s2)

/-- processWithdrawal: debit the source wallet by amount plus fee, post the
principal ledger group, then the fee group when the fee is positive. -/
def processWithdrawal (tx : Transaction) (now : Nat) (s : EngineState) :
    Option EngineErr × EngineState :=
  match updateBalance tx.fromWalletId (-(tx.amount + tx.fee)) now s with
  | (some e, s1) => (some e, s1)
  | (none, s1) =>
    match postLedger s1 tx.idempotencyKey ("TXN-" ++ tx.id)
        ("Withdrawal: " ++ toString tx.amount ++ " " ++ tx.currency)
        [ { accountId := walletKey (tx.fromWalletId.getD 0), type := .DEBIT, amount := tx.amount }
        , { accountId := "bank-clearing", type := .CREDIT, amount := tx.amount } ] now with
    | (some e, s2) => (some e, s2)
    | (none, s2) =>
      if 0 < tx.fee then
        match postLedger s2 (tx.idempotencyKey ++ "-fee") ("FEE-" ++ tx.id)
            ("Withdrawal fee: " ++ toString tx.fee ++ " " ++ tx.currency)
            [ { accountId := walletKey (tx.fromWalletId.getD 0), type := .DEBIT, amount := tx.fee }
            , { accountId := "fee-revenue", type := .CREDIT, amount := tx.fee } ] now with
        | (some e, s3) => (some e, s3)
        | (none, s3) => (none, s3)
      else (none, s2)

/-- processTransfer: debit the source by amount plus fee, credit the
destination by amount, post the principal group, then the fee group. -/
def processTransfer (tx : Transaction) (now : Nat) (s : EngineState) :
    Option EngineErr × EngineState :=
  match updateBalance tx.fromWalletId (-(tx.amount + tx.fee)) now s with
  | (some e, s1) => (some e, s1)
  | (none, s1) =>
    match updateBalance tx.toWalletId tx.amount now s1 with
    | (some e, s2) => (some e, s2)
    | (none, s2) =>
      match postLedger s2 tx.idempotencyKey ("TXN-" ++ tx.id)
          ("Transfer: " ++ toString tx.amount ++ " " ++ tx.currency)
          [ { accountId := walletKey (tx.fromWalletId.getD 0), type := .DEBIT, amount := tx.amount }
          , { accountId := walletKey (tx.toWalletId.getD 0), type := .CREDIT, amount := tx.amount } ] now with
      | (some e, s3) => (some e, s3)
      | (none, s3) =>
        if 0 < tx.fee then
          match postLedger s3 (tx.idempotencyKey ++ "-fee") ("FEE-" ++ tx.id)
              ("Transfer fee: " ++ toString tx.fee ++ " " ++ tx.currency)
              [ { accountId := walletKey (tx.fromWalletId.getD 0), type := .DEBIT, amount := tx.fee }
              , { accountId := "fee-revenue", type := .CREDIT, amount := tx.fee } ] now with
          | (some e, s4) => (some e, s4)
          | (none, s4) => (none, s4)
        else (none, s3)

/-- The per-type handler dispatch of processTransaction.  TRADE only logs, and
any other type hits the default branch that throws. -/
def dispatchHandler (tx : Transaction) (now : Nat) (s : EngineState) :
    Option EngineErr × EngineState :=
  match tx.type with
  | .DEPOSIT => processDeposit tx now s
  | .WITHDRAWAL => processWithdrawal tx now s
  | .TRANSFER => processTransfer tx now s
  | .TRADE => (none, s)
  | _ => (some .unsupportedType, s)

/-- The protected region of processTransaction: acquire the wallet locks and
run the per-type handler.  Any error here is what the catch block observes. -/
def processCore (tx : Transaction) (now : Nat) (s : EngineState) :
    Option EngineErr × EngineState :=
  match acquireLocks tx now s with
  | (some e, s1) => (some e, s1)
  | (none, s1) => dispatchHandler tx now s1

/-- processTransaction from transactions.service.ts: return the transaction
unchanged unless it is PENDING; otherwise mark it PROCESSING, run the guarded
region, record COMPLETED or FAILED with the captured message, and always
release the wallet locks before returning.  Exceptions from the guarded
region are swallowed; only a missing transaction id propagates. -/
def processTransaction (txId : String) (now : Nat) (s : EngineState) :
    Except EngineErr Transaction × EngineState :=
  match mapGet s.transactions txId with
  | none => (.error (.notFoundError ("Transaction " ++ txId)), s)
  | some tx =>
    if tx.status ≠ .PENDING then (.ok tx, s)
    else
      let tx1 := { tx with status := .PROCESSING, updatedAt := now }
      let s1 := setTx s tx1
      match processCore tx1 now s1 with
      | (none, s2) =>
        let tx2 := { tx1 with status := .COMPLETED, completedAt := some now, updatedAt := now }
        (.ok tx2, releaseLocks tx2 (setTx s2 tx2))
      | (some e, s2) =>
        let tx2 := { tx1 with status := .FAILED, errorMessage := some (errMessage e), updatedAt := now }
        (.ok tx2, releaseLocks tx2 (setTx s2 tx2))

/-- cancel from transactions.service.ts: reject a foreign or non-PENDING
transaction, otherwise mark it CANCELLED with cancelledAt set and release any
residual locks. -/
def cancel (txId : String) (userId : Nat) (now : Nat) (s : EngineState) :
    Except EngineErr Transaction × EngineState :=
  match mapGet s.transactions txId with
  | none => (.error (.notFoundError ("Transaction " ++ txId)), s)
  | some tx =>
    if tx.userId ≠ userId then
      (.error (.validationError "Cannot cancel transaction of another user"), s)
    else if tx.status ≠ .PENDING then
      (.error (.invalidStateTransition tx.status), s)
    else
      let tx1 := { tx with status := .CANCELLED, cancelledAt := some now, updatedAt := now }
      (.ok tx1, releaseLocks tx1 (setTx s tx1))

/-! ## Interleaved execution model

processTransaction is an async method: after the awaited lock acquisition the
worker suspends before the per-type handler runs, so other requests (creates,
cancels, other workers) can run in between.  The machine below exposes exactly
that suspension point: startWork performs the PENDING check, the transition to
PROCESSING and the lock acquisition (one synchronous region of the event
loop), and finishWork later runs the handler, records the outcome, and
releases the locks.  Every trace of this machine is a schedule the Node event
loop can produce. -/

structure SysState where
  engine : EngineState
  running : List String
deriving DecidableEq

inductive MEvent where
  | createReq (dto : CreateTransactionDto) (userId : Nat) (now : Nat)
  | startWork (txId : String) (now : Nat)
  | finishWork (txId : String) (now : Nat)
  | cancelReq (txId : String) (userId : Nat) (now : Nat)

def mStep (st : SysState) (ev : MEvent) : SysState :=
  match ev with
  | .createReq dto userId now =>
    { st with engine := (create dto userId now st.engine).2 }
  | .startWork txId now =>
    match mapGet st.engine.transactions txId with
    | none => st
    | some tx =>
      if tx.status ≠ .PENDING then st
      else
        let tx1 := { tx with status := .PROCESSING, updatedAt := now }
        let s1 := setTx st.engine tx1
        match acquireLocks tx1 now s1 with
        | (none, s2) => { engine := s2, running := txId :: st.running }
        | (some e, s2) =>
          let tx2 := { tx1 with
            status := .FAILED
            errorMessage := some (errMessage e)
            updatedAt := now }
          { st with engine := releaseLocks tx2 (setTx s2 tx2) }
  | .finishWork txId now =>
    if txId ∈ st.running then
      match mapGet st.engine.transactions txId with
      | none => st
      | some tx =>
        let st1 : SysState := { st with running := st.running.erase txId }
        match dispatchHandler tx now st.engine with
        | (none, s2) =>
          let tx2 := { tx with
            status := .COMPLETED
            completedAt := some now
            updatedAt := now }
          { st1 with engine := releaseLocks tx2 (setTx s2 tx2) }
        | (some e, s2) =>
          let tx2 := { tx with
            status := .FAILED
            errorMessage := some (errMessage e)
            updatedAt := now }
          { st1 with engine := releaseLocks tx2 (setTx s2 tx2) }
    else st
  | .cancelReq txId userId now =>
    { st with engine := (cancel txId userId now st.engine).2 }

def mRun (st : SysState) (evs : List MEvent) : SysState :=
  evs.foldl mStep st

/-! ## Concrete scenario states used by the claim evidence -/

/-- A USD ledger account with the given type and balance. -/
def usdAccount (i : String) (t : LedgerAccountType) (b : Rat) : LedgerAccount :=
  { id := i, name := i, type := t, currency := "USD", balance := b, isLocked := false, createdAt := 0, updatedAt := 0 }

/-- A ledger state holding two accounts and nothing else. -/
def twoAccountLedger (a1 a2 : LedgerAccount) : LedgerState :=
  { accounts := [(a1.id, a1), (a2.id, a2)], entries := [], transactions := [], idempotencyKeys := [], locks := [], nextId := 0 }

def c1Ledger : LedgerState :=
  twoAccountLedger (usdAccount "acct-1" .ASSET 0) (usdAccount "acct-2" .ASSET 0)

def c1Entries : List EntryInput :=
  [⟨"acct-1", .DEBIT, 100⟩, ⟨"acct-2", .CREDIT, 100⟩]

def c4Ledger : LedgerState :=
  twoAccountLedger (usdAccount "A" .ASSET 10) (usdAccount "B" .LIABILITY 0)

def c4Entries : List EntryInput :=
  [⟨"A", .DEBIT, 5⟩, ⟨"A", .CREDIT, 100⟩, ⟨"B", .DEBIT, 95⟩]

def c4wLedger : LedgerState :=
  twoAccountLedger (usdAccount "A" .ASSET 5) (usdAccount "B" .LIABILITY 0)

def c4wEntries : List EntryInput :=
  [⟨"B", .DEBIT, 7⟩, ⟨"A", .CREDIT, 7⟩]

def c5Ledger : LedgerState :=
  twoAccountLedger (usdAccount "A" .ASSET 0) (usdAccount "B" .LIABILITY 0)

def c5Entries : List EntryInput :=
  [⟨"A", .DEBIT, 10⟩, ⟨"A", .CREDIT, 5⟩, ⟨"B", .CREDIT, 5⟩]

def c5wEntries : List EntryInput :=
  [⟨"A", .DEBIT, 10⟩, ⟨"B", .CREDIT, 10⟩]

/-- The ledger transaction produced by posting c5wEntries from c5Ledger. -/
def c5wTx : LedgerTransaction :=
  { id := "lid-0", idempotencyKey := "k", reference := "r", description := "d", totalAmount := 10, currency := "USD",
    entries :=
      [ { id := "lid-1", transactionId := "lid-0", accountId := "A", type := .DEBIT, amount := 10, currency := "USD", balance := 10, description := "d", createdAt := 3 }
      , { id := "lid-2", transactionId := "lid-0", accountId := "B", type := .CREDIT, amount := 10, currency := "USD", balance := 10, description := "d", createdAt := 3 } ]
    status := .COMPLETED, createdAt := 3, completedAt := 3 }

/-- The ledger state after posting c5wEntries from c5Ledger. -/
def c5wS1 : LedgerState :=
  { accounts := [("A", { usdAccount "A" .ASSET 0 with balance := 10, updatedAt := 3 }), ("B", { usdAccount "B" .LIABILITY 0 with balance := 10, updatedAt := 3 })]
    entries := c5wTx.entries
    transactions := [("lid-0", c5wTx)]
    idempotencyKeys := [("k", "lid-0")]
    locks := []
    nextId := 3 }

/-- A funded wallet used by the engine scenarios. -/
def demoWallet : Wallet :=
  { id := 1, userId := 7, currency := "USD", type := .FIAT, balance := 1000, status := .ACTIVE, createdAt := 0, updatedAt := 0 }

def emptyLedgerState : LedgerState :=
  { accounts := [], entries := [], transactions := [], idempotencyKeys := [], locks := [], nextId := 0 }

def demoEngine : EngineState :=
  { transactions := [], idempotencyKeys := [], locks := [], wallets := [demoWallet], ledger := emptyLedgerState, queue := [], nextId := 0 }

/-- A withdrawal request of 10 USD from wallet 1 under the given key. -/
def withdrawalDto (k : String) : CreateTransactionDto :=
  { idempotencyKey := k, type := .WITHDRAWAL, assetType := .FIAT, amount := 10, currency := "USD", fee := none, fromWalletId := some 1, toWalletId := none, fromAddress := none, toAddress := none, externalReference := none, description := none }

/-- The domain transaction the engine persists for withdrawalDto k as id i. -/
def c2Tx (k i : String) (st : TransactionStatus) (upd : Nat) (cAt : Option Nat) : Transaction :=
  { id := i, idempotencyKey := k, userId := 7, type := .WITHDRAWAL, assetType := .FIAT, amount := 10, currency := "USD", fee := 0, status := st, fromWalletId := some 1, toWalletId := none, fromAddress := none, toAddress := none, externalReference := none, description := none, errorMessage := none, createdAt := 0, updatedAt := upd, completedAt := none, cancelledAt := cAt }

/-- The wallet lock taken by transaction i on wallet 1 at instant t. -/
def c2Lock (i : String) (t : Nat) : TransactionLock :=
  { transactionId := i, walletId := 1, amount := 10, lockedAt := t, expiresAt := t + 60000 }

def c2Sys0 : SysState := { engine := demoEngine, running := [] }

def c2Events : List MEvent :=
  [ .createReq (withdrawalDto "k1") 7 0, .createReq (withdrawalDto "k2") 7 0,
    .createReq (withdrawalDto "k3") 7 0, .startWork "tx-0" 1,
    .cancelReq "tx-1" 7 2, .startWork "tx-2" 3 ]

def c2E1 : EngineState :=
  { transactions := [("tx-0", c2Tx "k1" "tx-0" .PENDING 0 none)]
    idempotencyKeys := [("k1", "tx-0")]
    locks := []
    wallets := [demoWallet]
    ledger := emptyLedgerState
    queue := ["tx-0"]
    nextId := 1 }

def c2E2 : EngineState :=
  { c2E1 with
    transactions := [("tx-0", c2Tx "k1" "tx-0" .PENDING 0 none), ("tx-1", c2Tx "k2" "tx-1" .PENDING 0 none)]
    idempotencyKeys := [("k1", "tx-0"), ("k2", "tx-1")]
    queue := ["tx-0", "tx-1"]
    nextId := 2 }

def c2E3 : EngineState :=
  { c2E2 with
    transactions := [("tx-0", c2Tx "k1" "tx-0" .PENDING 0 none), ("tx-1", c2Tx "k2" "tx-1" .PENDING 0 none), ("tx-2", c2Tx "k3" "tx-2" .PENDING 0 none)]
    idempotencyKeys := [("k1", "tx-0"), ("k2", "tx-1"), ("k3", "tx-2")]
    queue := ["tx-0", "tx-1", "tx-2"]
    nextId := 3 }

def c2E4 : EngineState :=
  { c2E3 with
    transactions := [("tx-0", c2Tx "k1" "tx-0" .PROCESSING 1 none), ("tx-1", c2Tx "k2" "tx-1" .PENDING 0 none), ("tx-2", c2Tx "k3" "tx-2" .PENDING 0 none)]
    locks := [("wallet-1", c2Lock "tx-0" 1)] }

def c2E5 : EngineState :=
  { c2E4 with
    transactions := [("tx-0", c2Tx "k1" "tx-0" .PROCESSING 1 none), ("tx-1", c2Tx "k2" "tx-1" .CANCELLED 2 (some 2)), ("tx-2", c2Tx "k3" "tx-2" .PENDING 0 none)]
    locks := [] }

def c2E6 : EngineState :=
  { c2E5 with
    transactions := [("tx-0", c2Tx "k1" "tx-0" .PROCESSING 1 none), ("tx-1", c2Tx "k2" "tx-1" .CANCELLED 2 (some 2)), ("tx-2", c2Tx "k3" "tx-2" .PROCESSING 3 none)]
    locks := [("wallet-1", c2Lock "tx-2" 3)] }

def c2S1 : SysState := { engine := c2E1, running := [] }

def c2S2 : SysState := { engine := c2E2, running := [] }

def c2S3 : SysState := { engine := c2E3, running := [] }

def c2S4 : SysState := { engine := c2E4, running := ["tx-0"] }

def c2S5 : SysState := { engine := c2E5, running := ["tx-0"] }

def c2S6 : SysState := { engine := c2E6, running := ["tx-2", "tx-0"] }

/-- A stored transaction record used by the engine scenarios. -/
def storedTx (i : String) (ty : TransactionType) (st : TransactionStatus) : Transaction :=
  { id := i, idempotencyKey := "key-" ++ i, userId := 7, type := ty, assetType := .FIAT, amount := 10, currency := "USD", fee := 0, status := st, fromWalletId := some 1, toWalletId := none, fromAddress := none, toAddress := none, externalReference := none, description := none, errorMessage := none, createdAt := 0, updatedAt := 0, completedAt := none, cancelledAt := none }

def c7PendingTx : Transaction := storedTx "t1" .FEE .PENDING

def c7ProcessingTx : Transaction := { c7PendingTx with status := .PROCESSING, updatedAt := 1 }

def c7Engine : EngineState := { demoEngine with transactions := [("t1", c7PendingTx)] }

/-- The state after the C7 worker has marked t1 PROCESSING and locked wallet 1. -/
def c7CoreState : EngineState :=
  { c7Engine with
    transactions := [("t1", c7ProcessingTx)]
    locks := [("wallet-1", { transactionId := "t1", walletId := 1, amount := 10, lockedAt := 1, expiresAt := 60001 })] }

def c8Tx : Transaction := storedTx "t1" .WITHDRAWAL .COMPLETED

def c8Engine : EngineState := { demoEngine with transactions := [("t1", c8Tx)] }

def c9Wallet : Wallet := { demoWallet with balance := 100 }

def c9Engine : EngineState := { demoEngine with wallets := [c9Wallet] }

/-- The C9 scenario request: withdraw 500 USD from wallet 1 with balance 100. -/
def c9Dto : CreateTransactionDto := { withdrawalDto "w500" with amount := 500 }

def c10PendingTx : Transaction := storedTx "p1" .WITHDRAWAL .PENDING

def c10CompletedTx : Transaction := storedTx "c1" .WITHDRAWAL .COMPLETED

def c10Engine : EngineState :=
  { demoEngine with transactions := [("p1", c10PendingTx), ("c1", c10CompletedTx)] }

def c10CancelledTx : Transaction :=
  { c10PendingTx with status := .CANCELLED, cancelledAt := some 5, updatedAt := 5 }

/-- A lock on wallet 1 held by a transaction that is not p1. -/
def c3OtherLock : TransactionLock :=
  { transactionId := "other-tx", walletId := 1, amount := 5, lockedAt := 0, expiresAt := 60000 }

def c3Engine : EngineState :=
  { demoEngine with transactions := [("p1", c10PendingTx)], locks := [("wallet-1", c3OtherLock)] }

def c3CancelledTx : Transaction :=
  { c10PendingTx with status := .CANCELLED, cancelledAt := some 2, updatedAt := 2 }

def c6Tx : Transaction := c2Tx "k1" "tx-0" .PENDING 0 none

/-! ## Lemmas about the map model -/

theorem mapGet_mapSet_self {α : Type} (m : List (String × α)) (k : String) (v : α) :
    mapGet (mapSet m k v) k = some v := by
  induction m with
  | nil => simp [mapSet, mapGet]
  | cons p rest ih =>
    by_cases h : p.1 = k
    · simp [mapSet, mapGet, h]
    · simp [mapSet, mapGet, h, ih]

theorem mapGet_mapSet_ne {α : Type} (m : List (String × α)) (k k' : String) (v : α)
    (h : k ≠ k') : mapGet (mapSet m k v) k' = mapGet m k' := by
  induction m with
  | nil => simp [mapSet, mapGet, h, Ne.symm h]
  | cons p rest ih =>
    by_cases hp : p.1 = k
    · subst hp
      simp [mapSet, mapGet, h, Ne.symm h]
    · by_cases hp' : p.1 = k'
      · simp [mapSet, mapGet, hp, hp', Ne.symm h]
      · simp [mapSet, mapGet, hp, hp', ih]

theorem mapGet_mapDelete_self {α : Type} (m : List (String × α)) (k : String) :
    mapGet (mapDelete m k) k = none := by
  induction m with
  | nil => simp [mapDelete, mapGet]
  | cons p rest ih =>
    by_cases h : p.1 = k
    · simp [mapDelete, h, ih]
    · simp [mapDelete, mapGet, h, ih]

theorem mapGet_mapDelete_ne {α : Type} (m : List (String × α)) (k k' : String)
    (h : k ≠ k') : mapGet (mapDelete m k) k' = mapGet m k' := by
  induction m with
  | nil => simp [mapDelete]
  | cons p rest ih =>
    by_cases hp : p.1 = k
    · subst hp
      simp [mapDelete, mapGet, h, ih]
    · by_cases hp' : p.1 = k'
      · simp [mapDelete, mapGet, hp, hp', Ne.symm h]
      · simp [mapDelete, mapGet, hp, hp', ih]

/-! ## Structural lemmas about the ledger operations -/

theorem mapGet_eq_some_mem {α : Type} {m : List (String × α)} {k : String} {v : α}
    (h : mapGet m k = some v) : (k, v) ∈ m := by
  induction m with
  | nil => simp [mapGet] at h
  | cons p rest ih =>
    obtain ⟨k1, v1⟩ := p
    by_cases hp : k1 = k
    · subst hp
      simp [mapGet] at h
      subst h
      exact List.mem_cons_self _ _
    · simp only [mapGet, if_neg hp] at h
      exact List.mem_cons_of_mem _ (ih h)

theorem uniqueFirst_mem : ∀ (l : List String) (a : String), a ∈ uniqueFirst l ↔ a ∈ l := by
  intro l
  induction l using uniqueFirst.induct with
  | case1 => intro a; simp [uniqueFirst]
  | case2 b rest ih =>
    intro a
    rw [uniqueFirst]
    simp only [List.mem_cons]
    rw [ih a]
    constructor
    · rintro (h | h)
      · exact Or.inl h
      · exact Or.inr (List.mem_of_mem_filter h)
    · rintro (h | h)
      · exact Or.inl h
      · by_cases hab : a = b
        · exact Or.inl hab
        · refine Or.inr (List.mem_filter.mpr ⟨h, ?_⟩)
          simp [hab]

theorem uniqueFirst_eq_of_nodup {l : List String} (h : l.Nodup) : uniqueFirst l = l := by
  induction l with
  | nil => simp [uniqueFirst]
  | cons a rest ih =>
    have hrest : rest.Nodup := (List.nodup_cons.mp h).2
    have hna : a ∉ rest := (List.nodup_cons.mp h).1
    have hfil : rest.filter (fun b => (b ≠ a : Prop)) = rest := by
      apply List.filter_eq_self.mpr
      intro b hb
      have hba : b ≠ a := fun hba => hna (hba ▸ hb)
      simp [hba]
    rw [uniqueFirst, hfil, ih hrest]

theorem foldl_mapDelete_none {α : Type} {m : List (String × α)} {k : String}
    (l : List String) (h : mapGet m k = none) :
    mapGet (l.foldl (fun t a => mapDelete t a) m) k = none := by
  induction l generalizing m with
  | nil => simpa
  | cons a rest ih =>
    simp only [List.foldl_cons]
    apply ih
    by_cases hak : a = k
    · subst hak
      exact mapGet_mapDelete_self _ _
    · rw [mapGet_mapDelete_ne _ _ _ hak]
      exact h

theorem foldl_mapDelete_mem_none {α : Type} {m : List (String × α)} {k : String}
    {l : List String} (h : k ∈ l) :
    mapGet (l.foldl (fun t a => mapDelete t a) m) k = none := by
  induction l generalizing m with
  | nil => simp at h
  | cons a rest ih =>
    simp only [List.foldl_cons]
    rcases List.mem_cons.mp h with h | h
    · subst h
      exact foldl_mapDelete_none rest (mapGet_mapDelete_self _ _)
    · exact ih h

theorem unlockAll_eq (s : LedgerState) (l : List String) :
    unlockAll s l = { s with locks := l.foldl (fun m a => mapDelete m a) s.locks } := by
  induction l generalizing s with
  | nil => rfl
  | cons a rest ih =>
    show unlockAll { s with locks := mapDelete s.locks a } rest = _
    rw [ih]
    rfl

theorem unlockAll_mem_none {s : LedgerState} {l : List String} {a : String}
    (h : a ∈ l) : mapGet (unlockAll s l).locks a = none := by
  rw [unlockAll_eq]
  exact foldl_mapDelete_mem_none h

theorem lockAll_state (s : LedgerState) (l : List String) :
    ∃ L, (lockAll s l).2 = { s with locks := L } := by
  induction l generalizing s with
  | nil => exact ⟨s.locks, rfl⟩
  | cons a rest ih =>
    by_cases h : (mapGet s.locks a).getD false
    · exact ⟨s.locks, by simp [lockAll, h]⟩
    · obtain ⟨L, hL⟩ := ih { s with locks := mapSet s.locks a true }
      exact ⟨L, by simp [lockAll, h, hL]⟩

theorem lockAll_ok_of_free {s : LedgerState} {l : List String}
    (hfree : ∀ a ∈ l, mapGet s.locks a = none) (hnd : l.Nodup) :
    (lockAll s l).1 = none := by
  induction l generalizing s with
  | nil => rfl
  | cons a rest ih =>
    have ha : mapGet s.locks a = none := hfree a (List.mem_cons_self a rest)
    have hcond : (mapGet s.locks a).getD false = false := by simp [ha]
    show (lockAll s (a :: rest)).1 = none
    simp only [lockAll, hcond, Bool.false_eq_true, if_false]
    apply ih
    · intro b hb
      have hba : b ≠ a := by
        rintro rfl
        exact (List.nodup_cons.mp hnd).1 hb
      rw [mapGet_mapSet_ne _ _ _ _ (Ne.symm hba)]
      exact hfree b (List.mem_cons_of_mem _ hb)
    · exact (List.nodup_cons.mp hnd).2

theorem applyEntries_state (txId desc : String) (now : Nat) (s : LedgerState)
    (entries : List EntryInput) :
    ∃ A E N, (applyEntries txId desc now s entries).2 =
      { s with accounts := A, entries := E, nextId := N } := by
  induction entries generalizing s with
  | nil => exact ⟨s.accounts, s.entries, s.nextId, rfl⟩
  | cons e rest ih =>
    cases hacct : mapGet s.accounts e.accountId with
    | none => exact ⟨s.accounts, s.entries, s.nextId, by simp [applyEntries, hacct]⟩
    | some acct =>
      by_cases hbal : acct.type = LedgerAccountType.ASSET ∧ entryDelta acct e < 0
      · exact ⟨s.accounts, s.entries, s.nextId, by simp [applyEntries, hacct, hbal]⟩
      · obtain ⟨A, E, N, hrec⟩ := ih (applyStep txId desc now s e acct)
        refine ⟨A, E, N, ?_⟩
        simp only [applyEntries, hacct, hbal, if_false]
        rcases hres : applyEntries txId desc now (applyStep txId desc now s e acct) rest
          with ⟨r, s2⟩
        rw [hres] at hrec
        cases r with
        | ok les => simpa [applyStep] using hrec
        | error er => simpa [applyStep] using hrec
theorem assetInv_get {s : LedgerState} {k : String} {a : LedgerAccount}
    (h : assetInv s) (hk : mapGet s.accounts k = some a)
    (ht : a.type = LedgerAccountType.ASSET) : 0 ≤ a.balance :=
  h (k, a) (mapGet_eq_some_mem hk) ht

theorem mem_mapSet {α : Type} {m : List (String × α)} {k : String} {v : α}
    {p : String × α} (h : p ∈ mapSet m k v) : p = (k, v) ∨ p ∈ m := by
  induction m with
  | nil => simpa [mapSet] using h
  | cons q rest ih =>
    by_cases hq : q.1 = k
    · simp only [mapSet, if_pos hq, List.mem_cons] at h
      rcases h with h | h
      · exact Or.inl h
      · exact Or.inr (List.mem_cons_of_mem _ h)
    · simp only [mapSet, if_neg hq, List.mem_cons] at h
      rcases h with h | h
      · exact Or.inr (h ▸ List.mem_cons_self _ _)
      · rcases ih h with h | h
        · exact Or.inl h
        · exact Or.inr (List.mem_cons_of_mem _ h)

theorem applyEntries_assetInv (txId desc : String) (now : Nat)
    (entries : List EntryInput) :
    ∀ s : LedgerState, assetInv s →
      assetInv (applyEntries txId desc now s entries).2 := by
  induction entries with
  | nil => intro s h; exact h
  | cons e rest ih =>
    intro s h
    cases hacct : mapGet s.accounts e.accountId with
    | none => simpa [applyEntries, hacct] using h
    | some acct =>
      by_cases hbal : acct.type = LedgerAccountType.ASSET ∧ entryDelta acct e < 0
      · simpa [applyEntries, hacct, hbal] using h
      · have hstep : assetInv (applyStep txId desc now s e acct) := by
          intro p hp hASSET
          rcases mem_mapSet hp with hp | hp
          · subst hp
            simp only at hASSET ⊢
            by_contra hneg
            exact hbal ⟨hASSET, by linarith [lt_of_not_le hneg]⟩
          · exact h p hp hASSET
        have hrec := ih (applyStep txId desc now s e acct) hstep
        simp only [applyEntries, hacct, hbal, if_false]
        rcases hres : applyEntries txId desc now (applyStep txId desc now s e acct) rest
          with ⟨r, s2⟩
        rw [hres] at hrec
        cases r with
        | ok les => exact hrec
        | error er => exact hrec

theorem applyEntries_insufficient_mem (txId desc : String) (now : Nat)
    (entries : List EntryInput) (aid : String) :
    ∀ s r2, applyEntries txId desc now s entries =
        (.error (.insufficientBalance aid), r2) →
      aid ∈ entries.map (fun e => e.accountId) := by
  induction entries with
  | nil => intro s r2 h; simp [applyEntries] at h
  | cons e rest ih =>
    intro s r2 h
    cases hacct : mapGet s.accounts e.accountId with
    | none => simp [applyEntries, hacct] at h
    | some acct =>
      by_cases hbal : acct.type = LedgerAccountType.ASSET ∧ entryDelta acct e < 0
      · simp only [applyEntries, hacct, hbal, if_true] at h
        obtain ⟨h1, -⟩ := Prod.mk.injEq .. ▸ h
        cases h1
        simp
      · simp only [applyEntries, hacct, hbal, if_false] at h
        rcases hres : applyEntries txId desc now (applyStep txId desc now s e acct) rest
          with ⟨r, s2⟩
        rw [hres] at h
        cases r with
        | ok les => simp at h
        | error er =>
          simp only [Prod.mk.injEq, Except.error.injEq] at h
          obtain ⟨rfl, rfl⟩ := h
          exact List.mem_cons_of_mem _ (ih _ _ hres)

theorem applyEntries_insufficient_unchanged (txId desc : String) (now : Nat)
    (entries : List EntryInput) (aid : String) :
    ∀ s r2, applyEntries txId desc now s entries =
        (.error (.insufficientBalance aid), r2) →
      (entries.map (fun e => e.accountId)).count aid ≤ 1 →
      mapGet r2.accounts aid = mapGet s.accounts aid := by
  induction entries with
  | nil => intro s r2 h _; simp [applyEntries] at h
  | cons e rest ih =>
    intro s r2 h hcount
    cases hacct : mapGet s.accounts e.accountId with
    | none => simp [applyEntries, hacct] at h
    | some acct =>
      by_cases hbal : acct.type = LedgerAccountType.ASSET ∧ entryDelta acct e < 0
      · simp only [applyEntries, hacct, hbal, if_true, Prod.mk.injEq,
          Except.error.injEq, LedgerErr.insufficientBalance.injEq] at h
        obtain ⟨rfl, rfl⟩ := h
        rfl
      · simp only [applyEntries, hacct, hbal, if_false] at h
        rcases hres : applyEntries txId desc now (applyStep txId desc now s e acct) rest
          with ⟨r, s2⟩
        rw [hres] at h
        cases r with
        | ok les => simp at h
        | error er =>
          simp only [Prod.mk.injEq, Except.error.injEq] at h
          obtain ⟨rfl, rfl⟩ := h
          by_cases heq : e.accountId = aid
          · exfalso
            have hmem : aid ∈ rest.map (fun e => e.accountId) :=
              applyEntries_insufficient_mem txId desc now rest aid _ _ hres
            have h1 : 0 < (rest.map (fun e => e.accountId)).count aid :=
              List.count_pos_iff.mpr hmem
            rw [List.map_cons, List.count_cons] at hcount
            simp [heq] at hcount
            omega
          · have hcount' : (rest.map (fun e => e.accountId)).count aid ≤ 1 := by
              rw [List.map_cons, List.count_cons] at hcount
              omega
            rw [ih _ _ hres hcount']
            simp only [applyStep]
            exact mapGet_mapSet_ne _ _ _ _ heq

theorem applyEntries_ok_spec (txId desc : String) (now : Nat)
    (entries : List EntryInput) :
    ∀ s les r2, applyEntries txId desc now s entries = (.ok les, r2) →
      (entries.map (fun e => e.accountId)).Nodup →
      (∀ e ∈ entries, ∃ acct, mapGet s.accounts e.accountId = some acct ∧
        mapGet r2.accounts e.accountId =
          some { acct with balance := entryDelta acct e, updatedAt := now } ∧
        ¬(acct.type = LedgerAccountType.ASSET ∧ entryDelta acct e < 0)) ∧
      (∀ aid, aid ∉ entries.map (fun e => e.accountId) →
        mapGet r2.accounts aid = mapGet s.accounts aid) ∧
      les.map inputOfEntry = entries := by
  induction entries with
  | nil =>
    intro s les r2 h _
    simp only [applyEntries, Prod.mk.injEq, Except.ok.injEq] at h
    obtain ⟨rfl, rfl⟩ := h
    exact ⟨by simp, fun aid _ => rfl, rfl⟩
  | cons e rest ih =>
    intro s les r2 h hnd
    cases hacct : mapGet s.accounts e.accountId with
    | none => simp [applyEntries, hacct] at h
    | some acct =>
      by_cases hbal : acct.type = LedgerAccountType.ASSET ∧ entryDelta acct e < 0
      · simp [applyEntries, hacct, hbal] at h
      · simp only [applyEntries, hacct, hbal, if_false] at h
        rcases hres : applyEntries txId desc now (applyStep txId desc now s e acct) rest
          with ⟨r, s2⟩
        rw [hres] at h
        cases r with
        | error er => simp at h
        | ok les2 =>
          simp only [Prod.mk.injEq, Except.ok.injEq] at h
          obtain ⟨rfl, rfl⟩ := h
          rw [List.map_cons, List.nodup_cons] at hnd
          obtain ⟨hhead, hrest⟩ := hnd
          obtain ⟨hmem, huntouched, halign⟩ := ih _ _ _ hres hrest
          refine ⟨?_, ?_, ?_⟩
          · intro e' he'
            rcases List.mem_cons.mp he' with rfl | he'
            · refine ⟨acct, hacct, ?_, hbal⟩
              rw [huntouched e'.accountId hhead]
              simp only [applyStep]
              exact mapGet_mapSet_self _ _ _
            · obtain ⟨acct', h1, h2, h3⟩ := hmem e' he'
              refine ⟨acct', ?_, h2, h3⟩
              rw [← h1]
              simp only [applyStep]
              symm
              apply mapGet_mapSet_ne
              intro hEq
              exact hhead (hEq ▸ List.mem_map_of_mem _ he')
          · intro aid haid
            rw [List.map_cons, List.mem_cons] at haid
            push_neg at haid
            rw [huntouched aid haid.2]
            simp only [applyStep]
            exact mapGet_mapSet_ne _ _ _ _ (Ne.symm haid.1)
          · simp only [List.map_cons, halign]
            rfl

theorem applyEntries_ok_of (txId desc : String) (now : Nat)
    (entries : List EntryInput) :
    ∀ s : LedgerState, (entries.map (fun e => e.accountId)).Nodup →
      (∀ e ∈ entries, ∃ acct, mapGet s.accounts e.accountId = some acct ∧
        ¬(acct.type = LedgerAccountType.ASSET ∧ entryDelta acct e < 0)) →
      ∃ les r2, applyEntries txId desc now s entries = (.ok les, r2) := by
  induction entries with
  | nil => intro s _ _; exact ⟨[], s, rfl⟩
  | cons e rest ih =>
    intro s hnd hcond
    obtain ⟨acct, hacct, hbal⟩ := hcond e (List.mem_cons_self _ _)
    rw [List.map_cons, List.nodup_cons] at hnd
    obtain ⟨hhead, hrest⟩ := hnd
    have hcond' : ∀ e' ∈ rest, ∃ acct',
        mapGet (applyStep txId desc now s e acct).accounts e'.accountId = some acct' ∧
        ¬(acct'.type = LedgerAccountType.ASSET ∧ entryDelta acct' e' < 0) := by
      intro e' he'
      obtain ⟨acct', h1, h2⟩ := hcond e' (List.mem_cons_of_mem _ he')
      refine ⟨acct', ?_, h2⟩
      rw [← h1]
      simp only [applyStep]
      apply mapGet_mapSet_ne
      intro hEq
      exact hhead (hEq ▸ List.mem_map_of_mem _ he')
    obtain ⟨les2, r2, hrec⟩ := ih (applyStep txId desc now s e acct) hrest hcond'
    refine ⟨mkLedgerEntry txId desc now s e acct :: les2, r2, ?_⟩
    simp [applyEntries, hacct, hbal, hrec]

theorem lockAll_proj (s : LedgerState) (l : List String) :
    (lockAll s l).2.accounts = s.accounts ∧ (lockAll s l).2.entries = s.entries ∧
    (lockAll s l).2.transactions = s.transactions ∧
    (lockAll s l).2.idempotencyKeys = s.idempotencyKeys ∧
    (lockAll s l).2.nextId = s.nextId := by
  obtain ⟨L, h⟩ := lockAll_state s l
  rw [h]
  exact ⟨rfl, rfl, rfl, rfl, rfl⟩

theorem applyEntries_proj (txId desc : String) (now : Nat) (s : LedgerState)
    (entries : List EntryInput) :
    (applyEntries txId desc now s entries).2.locks = s.locks ∧
    (applyEntries txId desc now s entries).2.transactions = s.transactions ∧
    (applyEntries txId desc now s entries).2.idempotencyKeys = s.idempotencyKeys := by
  obtain ⟨A, E, N, h⟩ := applyEntries_state txId desc now s entries
  rw [h]
  exact ⟨rfl, rfl, rfl⟩

theorem findMissing_eq_none {s : LedgerState} :
    ∀ {entries : List EntryInput},
      (∀ e ∈ entries, (mapGet s.accounts e.accountId).isSome) →
      findMissing s entries = none := by
  intro entries
  induction entries with
  | nil => intro _; rfl
  | cons e rest ih =>
    intro h
    have he := h e (List.mem_cons_self _ _)
    cases hacct : mapGet s.accounts e.accountId with
    | none => rw [hacct] at he; simp at he
    | some a =>
      simp only [findMissing, hacct]
      exact ih (fun e' he' => h e' (List.mem_cons_of_mem _ he'))

theorem flip_map_accountId (l : List EntryInput) :
    (l.map flipEntryInput).map (fun e => e.accountId) = l.map (fun e => e.accountId) := by
  rw [List.map_map]
  rfl

theorem shouldIncreaseBalance_flip (t : LedgerAccountType) (et : LedgerEntryType) :
    shouldIncreaseBalance t (flipType et) = !shouldIncreaseBalance t et := by
  cases t <;> cases et <;> rfl

theorem entryDelta_flip (acct0 acct1 : LedgerAccount) (e : EntryInput)
    (ht : acct1.type = acct0.type) (hb : acct1.balance = entryDelta acct0 e) :
    entryDelta acct1 (flipEntryInput e) = acct0.balance := by
  have hty : (flipEntryInput e).type = flipType e.type := rfl
  have ham : (flipEntryInput e).amount = e.amount := rfl
  unfold entryDelta at hb ⊢
  rw [hty, ham, ht, shouldIncreaseBalance_flip]
  cases hsi : shouldIncreaseBalance acct0.type e.type with
  | true =>
    rw [hsi] at hb
    simp at hb
    simp only [Bool.not_true, Bool.false_eq_true, if_false]
    rw [hb]
    ring
  | false =>
    rw [hsi] at hb
    simp at hb
    simp only [Bool.not_false, if_true]
    rw [hb]
    ring

theorem totalDebits_flip (l : List EntryInput) :
    totalDebits (l.map flipEntryInput) = totalCredits l := by
  induction l with
  | nil => rfl
  | cons e rest ih =>
    unfold totalDebits totalCredits at ih ⊢
    cases he : e.type <;>
      simp [flipEntryInput, flipType, he, List.filter_cons, ih]

theorem totalCredits_flip (l : List EntryInput) :
    totalCredits (l.map flipEntryInput) = totalDebits l := by
  induction l with
  | nil => rfl
  | cons e rest ih =>
    unfold totalDebits totalCredits at ih ⊢
    cases he : e.type <;>
      simp [flipEntryInput, flipType, he, List.filter_cons, ih]

theorem createTransactionFresh_ok_inv {s : LedgerState} {key ref desc : String}
    {entries : List EntryInput} {now : Nat} {tx : LedgerTransaction} {s' : LedgerState}
    (h : createTransactionFresh s key ref desc entries now = (.ok tx, s')) :
    ∃ sL les s2,
      lockAll { s with nextId := s.nextId + 1 }
          (uniqueFirst (entries.map (fun e => e.accountId))) = (none, sL) ∧
      ¬(|totalDebits entries - totalCredits entries| > 1 / 100) ∧
      applyEntries (freshLedgerId s.nextId) desc now sL entries = (.ok les, s2) ∧
      entries ≠ [] ∧
      tx.id = freshLedgerId s.nextId ∧ tx.entries = les ∧
      tx.status = .COMPLETED ∧ tx.idempotencyKey = key ∧ tx.reference = ref ∧
      s' = unlockAll
        { s2 with
          transactions := mapSet s2.transactions tx.id tx
          idempotencyKeys := mapSet s2.idempotencyKeys key tx.id }
        (uniqueFirst (entries.map (fun e => e.accountId))) := by
  simp only [createTransactionFresh] at h
  split at h
  next => simp at h
  next sL hL =>
    split at h
    next => simp at h
    next htol =>
      split at h
      next => simp at h
      next hFM =>
        split at h
        next => simp at h
        next les s2 hA =>
          split at h
          next => simp at h
          next e0 tl =>
            split at h
            next => simp at h
            next acct0 hacct0 =>
              simp only [Prod.mk.injEq, Except.ok.injEq] at h
              obtain ⟨rfl, rfl⟩ := h
              exact ⟨sL, les, s2, hL, htol, hA, by simp, rfl, rfl, rfl, rfl, rfl, rfl⟩

theorem createTransactionFresh_error_inv {s : LedgerState} {key ref desc : String}
    {entries : List EntryInput} {now : Nat} {er : LedgerErr} {s' : LedgerState}
    (h : createTransactionFresh s key ref desc entries now = (.error er, s')) :
    (∃ a sx, lockAll { s with nextId := s.nextId + 1 }
        (uniqueFirst (entries.map (fun e => e.accountId))) = (some a, sx)) ∨
    |totalDebits entries - totalCredits entries| > 1 / 100 ∨
    (∃ aid sL, lockAll { s with nextId := s.nextId + 1 }
        (uniqueFirst (entries.map (fun e => e.accountId))) = (none, sL) ∧
      findMissing sL entries = some aid) ∨
    (∃ sL e2 s2, lockAll { s with nextId := s.nextId + 1 }
        (uniqueFirst (entries.map (fun e => e.accountId))) = (none, sL) ∧
      applyEntries (freshLedgerId s.nextId) desc now sL entries = (.error e2, s2)) ∨
    entries = [] ∨
    (∃ sL les s2 e0 tl, entries = e0 :: tl ∧
      lockAll { s with nextId := s.nextId + 1 }
        (uniqueFirst (entries.map (fun e => e.accountId))) = (none, sL) ∧
      applyEntries (freshLedgerId s.nextId) desc now sL entries = (.ok les, s2) ∧
      mapGet s2.accounts e0.accountId = none) := by
  simp only [createTransactionFresh] at h
  split at h
  next a sx hL => exact Or.inl ⟨a, sx, hL⟩
  next sL hL =>
    split at h
    next htol => exact Or.inr (Or.inl htol)
    next htol =>
      split at h
      next aid hFM => exact Or.inr (Or.inr (Or.inl ⟨aid, sL, hL, hFM⟩))
      next hFM =>
        split at h
        next e2 s2 hA => exact Or.inr (Or.inr (Or.inr (Or.inl ⟨sL, e2, s2, hL, hA⟩)))
        next les s2 hA =>
          split at h
          next => exact Or.inr (Or.inr (Or.inr (Or.inr (Or.inl rfl))))
          next e0 tl =>
            split at h
            next hacct0 =>
              exact Or.inr (Or.inr (Or.inr (Or.inr (Or.inr
                ⟨sL, les, s2, e0, tl, rfl, hL, hA, hacct0⟩))))
            next acct0 hacct0 => simp at h

theorem createTransactionFresh_ok_construct (s : LedgerState) (key ref desc : String)
    (entries : List EntryInput) (now : Nat)
    (hnd : (entries.map (fun e => e.accountId)).Nodup)
    (hne : entries ≠ [])
    (hfree : ∀ a ∈ entries.map (fun e => e.accountId), mapGet s.locks a = none)
    (htol : ¬(|totalDebits entries - totalCredits entries| > 1 / 100))
    (hcond : ∀ e ∈ entries, ∃ acct, mapGet s.accounts e.accountId = some acct ∧
      ¬(acct.type = LedgerAccountType.ASSET ∧ entryDelta acct e < 0)) :
    ∃ tx s', createTransactionFresh s key ref desc entries now = (.ok tx, s') := by
  have haff : uniqueFirst (entries.map (fun e => e.accountId)) =
      entries.map (fun e => e.accountId) := uniqueFirst_eq_of_nodup hnd
  rcases hL : lockAll { s with nextId := s.nextId + 1 }
      (uniqueFirst (entries.map (fun e => e.accountId))) with ⟨lr, sL⟩
  have hlr : lr = none := by
    have hfree2 : ∀ a ∈ uniqueFirst (entries.map (fun e => e.accountId)),
        mapGet ({ s with nextId := s.nextId + 1 } : LedgerState).locks a = none := by
      intro a ha
      exact hfree a ((uniqueFirst_mem _ a).mp ha)
    have := lockAll_ok_of_free hfree2 (by rw [haff]; exact hnd)
    rw [hL] at this
    exact this
  subst hlr
  have hsLacc : sL.accounts = s.accounts := by
    obtain ⟨L, hLs⟩ := lockAll_state { s with nextId := s.nextId + 1 }
      (uniqueFirst (entries.map (fun e => e.accountId)))
    rw [hL] at hLs
    have hLs2 : sL = { s with nextId := s.nextId + 1, locks := L } := hLs
    rw [hLs2]
  have hcondL : ∀ e ∈ entries, ∃ acct, mapGet sL.accounts e.accountId = some acct ∧
      ¬(acct.type = LedgerAccountType.ASSET ∧ entryDelta acct e < 0) := by
    intro e he
    rw [hsLacc]
    exact hcond e he
  have hFM : findMissing sL entries = none := by
    apply findMissing_eq_none
    intro e he
    obtain ⟨acct, hacct, -⟩ := hcondL e he
    simp [hacct]
  obtain ⟨les, s2, hA⟩ :=
    applyEntries_ok_of (freshLedgerId s.nextId) desc now entries sL hnd hcondL
  rcases hres : createTransactionFresh s key ref desc entries now with ⟨r, sF⟩
  cases r with
  | ok tx => exact ⟨tx, sF, rfl⟩
  | error er =>
    exfalso
    rcases createTransactionFresh_error_inv hres with
      ⟨a, sx, hbad⟩ | hbad | ⟨aid, sL2, hL2, hbad⟩ | ⟨sL2, e2, s2x, hL2, hbad⟩ | hbad |
      ⟨sL2, les2, s2x, e0, tl, hbad0, hL2, hbad1, hbad2⟩
    · rw [hL] at hbad
      simp at hbad
    · exact htol hbad
    · rw [hL] at hL2
      obtain ⟨-, rfl⟩ := Prod.mk.injEq .. ▸ hL2
      rw [hFM] at hbad
      simp at hbad
    · rw [hL] at hL2
      obtain ⟨-, rfl⟩ := Prod.mk.injEq .. ▸ hL2
      rw [hA] at hbad
      simp at hbad
    · exact hne hbad
    · rw [hL] at hL2
      obtain ⟨-, rfl⟩ := Prod.mk.injEq .. ▸ hL2
      rw [hA] at hbad1
      simp only [Prod.mk.injEq, Except.ok.injEq] at hbad1
      obtain ⟨rfl, rfl⟩ := hbad1
      obtain ⟨hmem, -, -⟩ :=
        applyEntries_ok_spec (freshLedgerId s.nextId) desc now entries sL les s2 hA hnd
      obtain ⟨acct0, -, hacct0, -⟩ := hmem e0 (by rw [hbad0]; exact List.mem_cons_self _ _)
      rw [hbad2] at hacct0
      exact Option.noConfusion hacct0

theorem assetInv_of_accounts_eq {s1 s2 : LedgerState}
    (h : s1.accounts = s2.accounts) (h2 : assetInv s2) : assetInv s1 := by
  intro p hp ht
  exact h2 p (h ▸ hp) ht

theorem lockAll_snd_accounts {s sL : LedgerState} {l : List String}
    {r : Option LedgerErr} (h : lockAll s l = (r, sL)) : sL.accounts = s.accounts := by
  obtain ⟨L, hLs⟩ := lockAll_state s l
  rw [h] at hLs
  have h2 : sL = { s with locks := L } := hLs
  rw [h2]

theorem unlockAll_accounts (s : LedgerState) (l : List String) :
    (unlockAll s l).accounts = s.accounts := by
  rw [unlockAll_eq]

theorem lockAll_error_shape : ∀ (l : List String) (s : LedgerState) (e : LedgerErr)
    (sx : LedgerState), lockAll s l = (some e, sx) → ∃ a, e = .accountLocked a := by
  intro l
  induction l with
  | nil => intro s e sx h; simp [lockAll] at h
  | cons a rest ih =>
    intro s e sx h
    by_cases hl : (mapGet s.locks a).getD false
    · simp only [lockAll, hl, if_true, Prod.mk.injEq, Option.some.injEq] at h
      exact ⟨a, h.1.symm⟩
    · simp only [lockAll, hl, Bool.false_eq_true, if_false] at h
      exact ih _ _ _ h

theorem createTransactionFresh_assetInv (s : LedgerState) (key ref desc : String)
    (entries : List EntryInput) (now : Nat) (hinv : assetInv s) :
    assetInv (createTransactionFresh s key ref desc entries now).2 := by
  have hinv0 : assetInv ({ s with nextId := s.nextId + 1 } : LedgerState) := by
    exact assetInv_of_accounts_eq rfl hinv
  rcases hres : createTransactionFresh s key ref desc entries now with ⟨r, s'⟩
  show assetInv s'
  simp only [createTransactionFresh] at hres
  split at hres
  next e sL hL =>
    simp only [Prod.mk.injEq] at hres
    obtain ⟨-, rfl⟩ := hres
    exact assetInv_of_accounts_eq
      ((unlockAll_accounts _ _).trans (lockAll_snd_accounts hL)) hinv0
  next sL hL =>
    have hsL : assetInv sL :=
      assetInv_of_accounts_eq (lockAll_snd_accounts hL) hinv0
    split at hres
    next =>
      simp only [Prod.mk.injEq] at hres
      obtain ⟨-, rfl⟩ := hres
      exact assetInv_of_accounts_eq (unlockAll_accounts _ _) hsL
    next htol =>
      split at hres
      next aid hFM =>
        simp only [Prod.mk.injEq] at hres
        obtain ⟨-, rfl⟩ := hres
        exact assetInv_of_accounts_eq (unlockAll_accounts _ _) hsL
      next hFM =>
        have hs2 := applyEntries_assetInv (freshLedgerId s.nextId) desc now entries sL hsL
        split at hres
        next er s2 hA =>
          rw [hA] at hs2
          simp only [Prod.mk.injEq] at hres
          obtain ⟨-, rfl⟩ := hres
          exact assetInv_of_accounts_eq (unlockAll_accounts _ _) hs2
        next les s2 hA =>
          rw [hA] at hs2
          split at hres
          next =>
            simp only [Prod.mk.injEq] at hres
            obtain ⟨-, rfl⟩ := hres
            exact assetInv_of_accounts_eq (unlockAll_accounts _ _) hs2
          next e0 tl =>
            split at hres
            next hacct0 =>
              simp only [Prod.mk.injEq] at hres
              obtain ⟨-, rfl⟩ := hres
              exact assetInv_of_accounts_eq (unlockAll_accounts _ _) hs2
            next acct0 hacct0 =>
              simp only [Prod.mk.injEq] at hres
              obtain ⟨-, rfl⟩ := hres
              exact assetInv_of_accounts_eq (unlockAll_accounts _ _)
                (assetInv_of_accounts_eq rfl hs2)

theorem createTransactionFresh_insufficient_unchanged {s : LedgerState}
    {key ref desc : String} {entries : List EntryInput} {now : Nat}
    {aid : String} {s' : LedgerState}
    (h : createTransactionFresh s key ref desc entries now =
      (.error (.insufficientBalance aid), s'))
    (hc : (entries.map (fun e => e.accountId)).count aid ≤ 1) :
    mapGet s'.accounts aid = mapGet s.accounts aid := by
  simp only [createTransactionFresh] at h
  split at h
  next e sL hL =>
    simp only [Prod.mk.injEq, Except.error.injEq] at h
    obtain ⟨rfl, -⟩ := h
    obtain ⟨a, ha⟩ := lockAll_error_shape _ _ _ _ hL
    exact absurd ha (by simp)
  next sL hL =>
    split at h
    next => simp at h
    next htol =>
      split at h
      next aid2 hFM => simp at h
      next hFM =>
        split at h
        next er s2 hA =>
          simp only [Prod.mk.injEq, Except.error.injEq] at h
          obtain ⟨rfl, rfl⟩ := h
          have h2 := applyEntries_insufficient_unchanged (freshLedgerId s.nextId)
            desc now entries aid sL s2 hA hc
          rw [show (unlockAll s2 (uniqueFirst (entries.map (fun e => e.accountId)))).accounts
            = s2.accounts from unlockAll_accounts _ _]
          rw [h2, show sL.accounts = ({ s with nextId := s.nextId + 1 } : LedgerState).accounts
            from lockAll_snd_accounts hL]
        next les s2 hA =>
          split at h
          next => simp at h
          next e0 tl =>
            split at h
            next hacct0 => simp at h
            next acct0 hacct0 => simp at h

/-- Claim C4 (amended): starting from a state whose ASSET accounts all have
non-negative balances, every createTransaction call (successful or rejected)
preserves that invariant, so ASSET balances are never negative after a
successful posting; and when the posting is rejected with
InsufficientBalanceError over an account that at most one entry of the group
touches, that accounts balance is left unchanged (the failing entry is never
applied).  The original claims stronger clause, that the account is unchanged
even when earlier entries of the same rejected group touch it, is false on
the code (see the counterexample). -/
theorem c4_amended (s : LedgerState) (key ref desc : String)
    (entries : List EntryInput) (now : Nat) (hinv : assetInv s) :
    assetInv (createTransaction s key ref desc entries now).2 ∧
    (∀ aid s', createTransaction s key ref desc entries now =
        (.error (.insufficientBalance aid), s') →
      (entries.map (fun e => e.accountId)).count aid ≤ 1 →
      mapGet s'.accounts aid = mapGet s.accounts aid) := by
  constructor
  · rcases hres : createTransaction s key ref desc entries now with ⟨r, s'⟩
    show assetInv s'
    simp only [createTransaction] at hres
    split at hres
    next txId0 hk =>
      split at hres
      next tx0 htx0 =>
        simp only [Prod.mk.injEq] at hres
        obtain ⟨-, rfl⟩ := hres
        exact hinv
      next htx0 =>
        have hfr := createTransactionFresh_assetInv s key ref desc entries now hinv
        rw [hres] at hfr
        exact hfr
    next hk =>
      have hfr := createTransactionFresh_assetInv s key ref desc entries now hinv
      rw [hres] at hfr
      exact hfr
  · intro aid s' h hc
    simp only [createTransaction] at h
    split at h
    next txId0 hk =>
      split at h
      next tx0 htx0 => simp at h
      next htx0 => exact createTransactionFresh_insufficient_unchanged h hc
    next hk => exact createTransactionFresh_insufficient_unchanged h hc

/-- Claim C5 (amended): for a transaction posted fresh from a state whose
ASSET balances are non-negative, whose entry group touches pairwise-distinct
accounts, reverseTransaction posts the mirror-image entry set (DEBIT and
CREDIT swapped, same amounts and accounts) under the derived idempotency key,
after which every account touched by the original posting has the balance it
had before that posting; the original is marked REVERSED, and a second
reverseTransaction on it fails with AlreadyReversedError leaving the state
unchanged.  The original claims stronger form, quantifying over groups that
may touch the same account twice, is false on the code (see the
counterexample). -/
theorem c5_amended (s0 : LedgerState) (key ref desc reason : String)
    (entries : List EntryInput) (now now2 : Nat)
    (tx : LedgerTransaction) (s1 : LedgerState)
    (hinv : assetInv s0)
    (hfresh : mapGet s0.idempotencyKeys key = none)
    (hnd : (entries.map (fun e => e.accountId)).Nodup)
    (hpost : createTransaction s0 key ref desc entries now = (.ok tx, s1))
    (hrk : mapGet s1.idempotencyKeys (reversalKey tx.id now2) = none) :
    ∃ rtx s2, reverseTransaction s1 tx.id reason now2 = (.ok rtx, s2) ∧
      rtx.entries.map inputOfEntry = entries.map flipEntryInput ∧
      (∀ aid ∈ entries.map (fun e => e.accountId),
        (mapGet s2.accounts aid).map (fun a => a.balance) =
          (mapGet s0.accounts aid).map (fun a => a.balance)) ∧
      (mapGet s2.transactions tx.id).map (fun t => t.status) = some .REVERSED ∧
      (∀ reason2 now3,
        reverseTransaction s2 tx.id reason2 now3 = (.error .alreadyReversed, s2)) := by
  unfold createTransaction at hpost
  rw [hfresh] at hpost
  have hpost2 : createTransactionFresh s0 key ref desc entries now = (.ok tx, s1) := hpost
  obtain ⟨sL, les, s2p, hL, htol, hA, hne, htxid, htxentries, htxstatus, htxkey,
    htxref, hs1⟩ := createTransactionFresh_ok_inv hpost2
  have hsLacc : sL.accounts = s0.accounts := by
    have hq := lockAll_snd_accounts hL
    exact hq
  obtain ⟨hmem, huntouched, halign⟩ :=
    applyEntries_ok_spec (freshLedgerId s0.nextId) desc now entries sL les s2p hA hnd
  have hs1acc : s1.accounts = s2p.accounts := by
    rw [hs1, unlockAll_eq]
  have hs1trans : s1.transactions = mapSet s2p.transactions tx.id tx := by
    rw [hs1, unlockAll_eq]
  have hs1locks : ∀ a ∈ entries.map (fun e => e.accountId),
      mapGet s1.locks a = none := by
    intro a ha
    rw [hs1]
    exact unlockAll_mem_none ((uniqueFirst_mem _ a).mpr ha)
  have hgettx : mapGet s1.transactions tx.id = some tx := by
    rw [hs1trans]
    exact mapGet_mapSet_self _ _ _
  have hrevE : tx.entries.map (fun entry =>
      ({ accountId := entry.accountId, type := flipType entry.type, amount := entry.amount } : EntryInput)) =
      entries.map flipEntryInput := by
    rw [htxentries]
    have hmm : les.map (fun entry =>
        ({ accountId := entry.accountId, type := flipType entry.type, amount := entry.amount } : EntryInput)) =
        (les.map inputOfEntry).map flipEntryInput := by
      rw [List.map_map]
      rfl
    rw [hmm, halign]
  have hndrev : ((entries.map flipEntryInput).map (fun e => e.accountId)).Nodup := by
    rw [flip_map_accountId]
    exact hnd
  have hcond2 : ∀ e2 ∈ entries.map flipEntryInput, ∃ acct,
      mapGet s1.accounts e2.accountId = some acct ∧
      ¬(acct.type = LedgerAccountType.ASSET ∧ entryDelta acct e2 < 0) := by
    intro e2 he2
    obtain ⟨e, he, rfl⟩ := List.mem_map.mp he2
    obtain ⟨acct0, hacct0, hacct1, hok0⟩ := hmem e he
    refine ⟨{ acct0 with balance := entryDelta acct0 e, updatedAt := now }, ?_, ?_⟩
    · rw [hs1acc]
      exact hacct1
    · rintro ⟨hASSET, hlt⟩
      have hdel : entryDelta
          { acct0 with balance := entryDelta acct0 e, updatedAt := now }
          (flipEntryInput e) = acct0.balance :=
        entryDelta_flip acct0 _ e rfl rfl
      rw [hdel] at hlt
      have hA0 : acct0.type = LedgerAccountType.ASSET := hASSET
      have hacct00 : mapGet s0.accounts e.accountId = some acct0 := by
        rw [← hsLacc]
        exact hacct0
      have h0 : 0 ≤ acct0.balance := assetInv_get hinv hacct00 hA0
      linarith
  have htol2 : ¬(|totalDebits (entries.map flipEntryInput) -
      totalCredits (entries.map flipEntryInput)| > 1 / 100) := by
    rw [totalDebits_flip, totalCredits_flip, abs_sub_comm]
    exact htol
  have hfree2 : ∀ a ∈ (entries.map flipEntryInput).map (fun e => e.accountId),
      mapGet s1.locks a = none := by
    intro a ha
    rw [flip_map_accountId] at ha
    exact hs1locks a ha
  have hnerev : entries.map flipEntryInput ≠ [] := by
    intro hbad
    exact hne (List.map_eq_nil_iff.mp hbad)
  obtain ⟨rtx, s2x, hok⟩ := createTransactionFresh_ok_construct s1
    (reversalKey tx.id now2) ("REV-" ++ tx.reference) ("Reversal: " ++ reason)
    (entries.map flipEntryInput) now2 hndrev hnerev hfree2 htol2 hcond2
  have hcc : createTransaction s1 (reversalKey tx.id now2) ("REV-" ++ tx.reference)
      ("Reversal: " ++ reason) (entries.map flipEntryInput) now2 = (.ok rtx, s2x) := by
    unfold createTransaction
    rw [hrk]
    exact hok
  obtain ⟨sL2, les2, s2q, hL2, htol2b, hA2, hne2, hrid, hrentries, hrstatus, hrkey,
    hrref, hs2x⟩ := createTransactionFresh_ok_inv hok
  have hsL2acc : sL2.accounts = s1.accounts := by
    have hq := lockAll_snd_accounts hL2
    exact hq
  obtain ⟨hmem2, hunt2, halign2⟩ := applyEntries_ok_spec (freshLedgerId s1.nextId)
    ("Reversal: " ++ reason) now2 (entries.map flipEntryInput) sL2 les2 s2q hA2 hndrev
  have hs2xacc : s2x.accounts = s2q.accounts := by
    rw [hs2x, unlockAll_eq]
  rcases hrev : reverseTransaction s1 tx.id reason now2 with ⟨rr, s2f⟩
  simp only [reverseTransaction] at hrev
  split at hrev
  next hnone =>
    rw [hgettx] at hnone
    exact absurd hnone (by simp)
  next originalTx hsome =>
    rw [hgettx] at hsome
    obtain rfl : tx = originalTx := Option.some.inj hsome
    split at hrev
    next hrevd =>
      rw [htxstatus] at hrevd
      exact absurd hrevd (by simp)
    next hnrev =>
      rw [hrevE, hcc] at hrev
      set S2F : LedgerState := ({ s2x with transactions := mapSet s2x.transactions tx.id { tx with status := .REVERSED } } : LedgerState) with hS2F
      have hrev2 : ((.ok rtx : Except LedgerErr LedgerTransaction), S2F) = (rr, s2f) := hrev
      simp only [Prod.mk.injEq] at hrev2
      obtain ⟨rfl, rfl⟩ := hrev2
      refine ⟨rtx, _, rfl, ?_, ?_, ?_, ?_⟩
      · rw [hrentries]
        exact halign2
      · intro aid haid
        obtain ⟨e, he, rfl⟩ := List.mem_map.mp haid
        obtain ⟨acct0, hacct0, hacct1, hok0⟩ := hmem e he
        obtain ⟨acct', hacctL2, hacctq, hok2⟩ :=
          hmem2 (flipEntryInput e) (List.mem_map_of_mem _ he)
        have hsame : acct' = { acct0 with balance := entryDelta acct0 e, updatedAt := now } := by
          have h1 : mapGet sL2.accounts e.accountId =
              some { acct0 with balance := entryDelta acct0 e, updatedAt := now } := by
            rw [hsL2acc, hs1acc]
            exact hacct1
          have h2 : mapGet sL2.accounts e.accountId = some acct' := hacctL2
          rw [h1] at h2
          injection h2 with hh
          exact hh.symm
        subst hsame
        have hdel : entryDelta { acct0 with balance := entryDelta acct0 e, updatedAt := now }
            (flipEntryInput e) = acct0.balance :=
          entryDelta_flip acct0 _ e rfl rfl
        have hleft : mapGet S2F.accounts e.accountId =
            some { acct0 with balance := acct0.balance, updatedAt := now2 } := by
          show mapGet s2x.accounts e.accountId = _
          rw [hs2xacc]
          have hq : mapGet s2q.accounts e.accountId =
              some { { acct0 with balance := entryDelta acct0 e, updatedAt := now } with
                balance := entryDelta { acct0 with balance := entryDelta acct0 e, updatedAt := now } (flipEntryInput e), updatedAt := now2 } := hacctq
          rw [hq, hdel]
        have hright : mapGet s0.accounts e.accountId = some acct0 := by
          rw [← hsLacc]
          exact hacct0
        rw [hleft, hright]
        simp
      · show (mapGet S2F.transactions tx.id).map (fun t => t.status) = some LedgerTxStatus.REVERSED
        rw [hS2F]
        show (mapGet (mapSet s2x.transactions tx.id { tx with status := .REVERSED }) tx.id).map (fun t => t.status) = some LedgerTxStatus.REVERSED
        rw [mapGet_mapSet_self]
        rfl
      · intro reason2 now3
        have hget2 : mapGet S2F.transactions tx.id = some { tx with status := .REVERSED } := by
          show mapGet (mapSet s2x.transactions tx.id { tx with status := .REVERSED }) tx.id = _
          exact mapGet_mapSet_self _ _ _
        rcases hrev3 : reverseTransaction S2F tx.id reason2 now3 with ⟨r3, s3⟩
        simp only [reverseTransaction] at hrev3
        split at hrev3
        next hnone2 =>
          rw [hget2] at hnone2
          exact absurd hnone2 (by simp)
        next otx2 hsome2 =>
          rw [hget2] at hsome2
          obtain rfl : otx2 = { tx with status := .REVERSED } := by
            injection hsome2 with hh
            exact hh.symm
          split at hrev3
          next =>
            simp only [Prod.mk.injEq] at hrev3
            obtain ⟨rfl, rfl⟩ := hrev3
            rfl
          next hbad =>
            exact absurd rfl hbad

/-! ## Lemmas about the transaction engine -/

theorem releaseLocks_from_none {tx : Transaction} (s : EngineState) {fw : Nat}
    (h : jsWalletId tx.fromWalletId = some fw) :
    mapGet (releaseLocks tx s).locks (walletKey fw) = none := by
  simp only [releaseLocks, h]
  cases hto : jsWalletId tx.toWalletId with
  | none => exact mapGet_mapDelete_self _ _
  | some tw =>
    show mapGet (mapDelete (mapDelete s.locks (walletKey fw)) (walletKey tw))
      (walletKey fw) = none
    by_cases hk : walletKey tw = walletKey fw
    · rw [hk]
      exact mapGet_mapDelete_self _ _
    · rw [mapGet_mapDelete_ne _ _ _ hk]
      exact mapGet_mapDelete_self _ _

theorem releaseLocks_to_none {tx : Transaction} (s : EngineState) {tw : Nat}
    (h : jsWalletId tx.toWalletId = some tw) :
    mapGet (releaseLocks tx s).locks (walletKey tw) = none := by
  simp only [releaseLocks, h]
  exact mapGet_mapDelete_self _ _

/-- Characterization of a successful createFresh: the new transaction is
indexed under its idempotency key and stored under its id. -/
theorem createFresh_ok_inv {dto : CreateTransactionDto} {userId now : Nat}
    {s s' : EngineState} {tx : Transaction}
    (h : createFresh dto userId now s = (.ok tx, s')) :
    mapGet s'.idempotencyKeys dto.idempotencyKey = some tx.id ∧
    mapGet s'.transactions tx.id = some tx := by
  simp only [createFresh] at h
  split at h
  next => simp at h
  next hval =>
    simp only [Prod.mk.injEq, Except.ok.injEq] at h
    obtain ⟨rfl, rfl⟩ := h
    constructor
    · exact mapGet_mapSet_self _ _ _
    · exact mapGet_mapSet_self _ _ _

/-! ## Claim theorems for the transaction engine -/

/-- Claim C8: for every transaction whose status is not PENDING,
processTransaction is a no-op: it returns the stored transaction unchanged and
leaves the whole engine state (statuses, wallet balances, ledger, locks,
queue) untouched, which makes at-least-once job delivery safe against
double-application. -/
theorem c8_process_nonpending_noop (s : EngineState) (txId : String) (now : Nat)
    (tx : Transaction) (h : mapGet s.transactions txId = some tx)
    (hst : tx.status ≠ .PENDING) :
    processTransaction txId now s = (.ok tx, s) := by
  unfold processTransaction
  rw [h]
  simp [hst]

/-- Claim C6: calling create twice with the same idempotency key returns the
same Transaction object on the second call and changes nothing: the state
(stored transactions, idempotency index, queue, wallets, ledger) after the
second call is exactly the state after the first, so no second record is
stored and no second job is enqueued. -/
theorem c6_create_idempotent (dto : CreateTransactionDto) (userId now now2 : Nat)
    (s s' : EngineState) (tx : Transaction)
    (h : create dto userId now s = (.ok tx, s')) :
    create dto userId now2 s' = (.ok tx, s') := by
  unfold create at h
  split at h
  next txId0 hk =>
    split at h
    next tx0 htx0 =>
      simp only [Prod.mk.injEq, Except.ok.injEq] at h
      obtain ⟨rfl, rfl⟩ := h
      unfold create
      rw [hk]
      simp [htx0]
    next htx0 =>
      obtain ⟨h1, h2⟩ := createFresh_ok_inv h
      unfold create
      rw [h1]
      simp [h2]
  next hk =>
    obtain ⟨h1, h2⟩ := createFresh_ok_inv h
    unfold create
    rw [h1]
    simp [h2]

/-- Claim C9: a create request with a fresh idempotency key, a positive
amount, and a source wallet owned by the requesting user whose balance is
below amount plus fee is rejected with InsufficientBalanceError, and the
state is returned unchanged: no transaction record is persisted and no queue
job is enqueued. -/
theorem c9_create_insufficient_rejected (dto : CreateTransactionDto)
    (userId now : Nat) (s : EngineState) (fw : Nat) (w : Wallet)
    (hk : mapGet s.idempotencyKeys dto.idempotencyKey = none)
    (hamt : 0 < dto.amount)
    (hfw : jsWalletId dto.fromWalletId = some fw)
    (hw : findWallet s.wallets fw = some w)
    (howner : w.userId = userId)
    (hbal : w.balance < dto.amount + dto.fee.getD 0) :
    create dto userId now s = (.error .insufficientBalance, s) := by
  have hval : validateTransaction dto userId s = some .insufficientBalance := by
    unfold validateTransaction
    rw [if_neg (not_le.mpr hamt)]
    simp [hfw, hw, howner, hbal]
  unfold create
  rw [hk]
  simp [createFresh, hval]

/-- Claim C10: cancel succeeds exactly when the requesting user owns the
transaction and its status is PENDING, in which case the status becomes
CANCELLED with cancelledAt set and the wallet locks are released; cancelling
an owned transaction in any other status fails with
InvalidStateTransitionError and leaves the entire state unchanged. -/
theorem c10_cancel_spec (s : EngineState) (txId : String) (userId now : Nat)
    (tx : Transaction) (h : mapGet s.transactions txId = some tx) :
    (tx.userId = userId → tx.status = .PENDING →
      cancel txId userId now s =
        (.ok { tx with status := .CANCELLED, cancelledAt := some now, updatedAt := now },
          releaseLocks { tx with status := .CANCELLED, cancelledAt := some now, updatedAt := now }
            (setTx s { tx with status := .CANCELLED, cancelledAt := some now, updatedAt := now }))) ∧
    (tx.userId = userId → tx.status ≠ .PENDING →
      cancel txId userId now s = (.error (.invalidStateTransition tx.status), s)) ∧
    (∀ r s', cancel txId userId now s = (.ok r, s') →
      tx.userId = userId ∧ tx.status = .PENDING) := by
  refine ⟨?_, ?_, ?_⟩
  · intro howner hpend
    unfold cancel
    rw [h]
    simp [howner, hpend]
  · intro howner hnp
    unfold cancel
    rw [h]
    simp [howner, hnp]
  · intro r s' hc
    unfold cancel at hc
    rw [h] at hc
    by_cases h1 : tx.userId = userId
    · by_cases h2 : tx.status = .PENDING
      · exact ⟨h1, h2⟩
      · simp [h1, h2] at hc
    · simp [h1] at hc

/-- Claim C3: releaseLocks deletes the lock-table entries keyed by the
transactions fromWalletId and toWalletId unconditionally, for every lock
table content, without comparing the stored lock owner with the transaction;
consequently a successful cancel of a PENDING transaction deletes the lock
at its wallet key even when that lock is held by a different in-flight
transaction. -/
theorem c3_releaseLocks_unconditional :
    (∀ (s : EngineState) (tx : Transaction) (fw : Nat),
      jsWalletId tx.fromWalletId = some fw →
      mapGet (releaseLocks tx s).locks (walletKey fw) = none) ∧
    (∀ (s : EngineState) (tx : Transaction) (tw : Nat),
      jsWalletId tx.toWalletId = some tw →
      mapGet (releaseLocks tx s).locks (walletKey tw) = none) ∧
    (∀ (s : EngineState) (txId : String) (userId now : Nat) (tx tx' : Transaction)
      (s' : EngineState) (fw : Nat),
      mapGet s.transactions txId = some tx →
      cancel txId userId now s = (.ok tx', s') →
      jsWalletId tx.fromWalletId = some fw →
      mapGet s'.locks (walletKey fw) = none) := by
  refine ⟨fun s tx fw hf => releaseLocks_from_none s hf,
    fun s tx tw ht => releaseLocks_to_none s ht, ?_⟩
  intro s txId userId now tx tx' s' fw h hc hfw
  unfold cancel at hc
  rw [h] at hc
  by_cases h1 : tx.userId = userId
  · by_cases h2 : tx.status = .PENDING
    · simp only [h1, h2] at hc
      simp at hc
      obtain ⟨-, hs'⟩ := hc
      rw [← hs']
      apply releaseLocks_from_none
      exact hfw
    · simp [h1, h2] at hc
  · simp [h1] at hc

/-- Claim C7: for a PENDING transaction, if the guarded region of
processTransaction (lock acquisition plus the per-type handler) raises any
exception, processTransaction still returns normally (the exception is not
re-thrown past the worker boundary), the transaction is marked FAILED with
the error message captured, and the wallet locks are released; on success it
is marked COMPLETED and the locks are likewise released. -/
theorem c7_process_failure_handling (s : EngineState) (txId : String) (now : Nat)
    (tx : Transaction) (h : mapGet s.transactions txId = some tx)
    (hst : tx.status = .PENDING) :
    (∀ e s2, processCore { tx with status := .PROCESSING, updatedAt := now } now
        (setTx s { tx with status := .PROCESSING, updatedAt := now }) = (some e, s2) →
      ∃ tx2 s3, processTransaction txId now s = (.ok tx2, s3) ∧
        tx2.status = .FAILED ∧ tx2.errorMessage = some (errMessage e) ∧
        (∀ fw, jsWalletId tx.fromWalletId = some fw →
          mapGet s3.locks (walletKey fw) = none) ∧
        (∀ tw, jsWalletId tx.toWalletId = some tw →
          mapGet s3.locks (walletKey tw) = none)) ∧
    (∀ s2, processCore { tx with status := .PROCESSING, updatedAt := now } now
        (setTx s { tx with status := .PROCESSING, updatedAt := now }) = (none, s2) →
      ∃ tx2 s3, processTransaction txId now s = (.ok tx2, s3) ∧
        tx2.status = .COMPLETED ∧ tx2.completedAt = some now ∧
        (∀ fw, jsWalletId tx.fromWalletId = some fw →
          mapGet s3.locks (walletKey fw) = none) ∧
        (∀ tw, jsWalletId tx.toWalletId = some tw →
          mapGet s3.locks (walletKey tw) = none)) := by
  constructor
  · intro e s2 hcore
    have heq : processTransaction txId now s =
        (.ok { tx with status := .FAILED, errorMessage := some (errMessage e), updatedAt := now },
          releaseLocks
            { tx with status := .FAILED, errorMessage := some (errMessage e), updatedAt := now }
            (setTx s2
              { tx with status := .FAILED, errorMessage := some (errMessage e), updatedAt := now })) := by
      unfold processTransaction
      rw [h]
      simp only [hst, ne_eq, not_true_eq_false, if_false]
      rw [hcore]
    exact ⟨_, _, heq, rfl, rfl, fun fw hfw => releaseLocks_from_none _ hfw,
      fun tw htw => releaseLocks_to_none _ htw⟩
  · intro s2 hcore
    have heq : processTransaction txId now s =
        (.ok { tx with status := .COMPLETED, completedAt := some now, updatedAt := now },
          releaseLocks
            { tx with status := .COMPLETED, completedAt := some now, updatedAt := now }
            (setTx s2
              { tx with status := .COMPLETED, completedAt := some now, updatedAt := now })) := by
      unfold processTransaction
      rw [h]
      simp only [hst, ne_eq, not_true_eq_false, if_false]
      rw [hcore]
    exact ⟨_, _, heq, rfl, rfl, fun fw hfw => releaseLocks_from_none _ hfw,
      fun tw htw => releaseLocks_to_none _ htw⟩

/-! ## Evaluation lemmas for the deterministic id generators -/

theorem freshTxId_0 : freshTxId 0 = "tx-0" := rfl

theorem freshTxId_1 : freshTxId 1 = "tx-1" := rfl

theorem freshTxId_2 : freshTxId 2 = "tx-2" := rfl

theorem freshLedgerId_0 : freshLedgerId 0 = "lid-0" := rfl

theorem freshLedgerId_1 : freshLedgerId 1 = "lid-1" := rfl

theorem freshLedgerId_2 : freshLedgerId 2 = "lid-2" := rfl

theorem freshLedgerId_3 : freshLedgerId 3 = "lid-3" := rfl

theorem freshLedgerId_4 : freshLedgerId 4 = "lid-4" := rfl

theorem walletKey_1 : walletKey 1 = "wallet-1" := rfl

theorem reversalKey_c5 : reversalKey "lid-0" 9 = "reversal-lid-0-9" := rfl

/-! ## Closed evidence theorems -/

/-- Claim C1 (divergence evidence): posting the balanced group c1Entries, a
100 DEBIT on ASSET account acct-1 followed by a 100 CREDIT on ASSET account
acct-2 with balance 0, is rejected with InsufficientBalanceError on acct-2,
yet acct-1s balance has been mutated to 100 and one ledger entry has been
appended.  The code validates and applies entry by entry, so a rejection
does not roll back, contradicting the all-or-nothing clause of the claim. -/
theorem c1_partial_posting :
    (createTransaction c1Ledger "k1" "ref" "desc" c1Entries 5).1 =
      .error (.insufficientBalance "acct-2") ∧
    (mapGet c1Ledger.accounts "acct-1").map (fun a => a.balance) = some 0 ∧
    (mapGet (createTransaction c1Ledger "k1" "ref" "desc" c1Entries 5).2.accounts
      "acct-1").map (fun a => a.balance) = some 100 ∧
    (createTransaction c1Ledger "k1" "ref" "desc" c1Entries 5).2.entries.length = 1 := by
  norm_num +decide [createTransaction, createTransactionFresh, c1Ledger, twoAccountLedger,
    usdAccount, c1Entries, mapGet, mapSet, mapDelete, uniqueFirst, lockAll, unlockAll,
    totalDebits, totalCredits, findMissing, applyEntries, applyStep, mkLedgerEntry,
    entryDelta, shouldIncreaseBalance, freshLedgerId_0, freshLedgerId_1]

/-- Claim C2 (divergence evidence): a reachable schedule of the engine in
which two transactions referencing wallet 1 are simultaneously PROCESSING.
Three withdrawals from wallet 1 are created; the worker starts tx-0 and
acquires the wallet-1 lock; the user cancels the still-PENDING tx-1, whose
releaseLocks deletes the wallet-1 lock held by tx-0; the worker then starts
tx-2, which acquires the freed lock, leaving both tx-0 and tx-2 in
PROCESSING against wallet 1 at once. -/
theorem c2_processing_not_exclusive :
    mRun c2Sys0 c2Events = c2S6 ∧
    (mapGet c2E6.transactions "tx-0").map (fun t => t.status) = some .PROCESSING ∧
    (mapGet c2E6.transactions "tx-2").map (fun t => t.status) = some .PROCESSING ∧
    (mapGet c2E6.transactions "tx-0").map (fun t => t.fromWalletId) = some (some 1) ∧
    (mapGet c2E6.transactions "tx-2").map (fun t => t.fromWalletId) = some (some 1) ∧
    "tx-0" ≠ "tx-2" := by
  refine ⟨?_, by norm_num +decide [c2E6, c2Tx, mapGet], by norm_num +decide [c2E6, c2Tx, mapGet],
    by norm_num +decide [c2E6, c2Tx, mapGet], by norm_num +decide [c2E6, c2Tx, mapGet], by decide⟩
  norm_num +decide [mRun, mStep, c2Sys0, c2Events, demoEngine, demoWallet, withdrawalDto,
    emptyLedgerState, create, createFresh, validateTransaction, cancel, acquireLocks,
    releaseLocks, setTx, mapGet, mapSet, mapDelete, findWallet, jsWalletId, walletKey_1,
    freshTxId_0, freshTxId_1, freshTxId_2, errMessage, c2S6, c2E6, c2E5, c2E4, c2E3,
    c2E2, c2E1, c2Tx, c2Lock]

/-- Claim C4 (counterexample): posting the balanced group c4Entries, DEBIT 5
then CREDIT 100 on ASSET account A with balance 10 plus DEBIT 95 on
LIABILITY account B, is rejected with InsufficientBalanceError on A, yet As
balance is 15 afterwards, not the 10 it held before the call: the earlier
entry of the same rejected group already mutated it, so the rejection does
not leave the failing accounts balance unchanged as the claim states. -/
theorem c4_counterexample :
    (createTransaction c4Ledger "k" "r" "d" c4Entries 3).1 =
      .error (.insufficientBalance "A") ∧
    (mapGet c4Ledger.accounts "A").map (fun a => a.balance) = some 10 ∧
    (mapGet (createTransaction c4Ledger "k" "r" "d" c4Entries 3).2.accounts "A").map
      (fun a => a.balance) = some 15 := by
  norm_num +decide [createTransaction, createTransactionFresh, c4Ledger, twoAccountLedger,
    usdAccount, c4Entries, mapGet, mapSet, mapDelete, uniqueFirst, lockAll, unlockAll,
    totalDebits, totalCredits, findMissing, applyEntries, applyStep, mkLedgerEntry,
    entryDelta, shouldIncreaseBalance]

/-- Witness for the amended claim C4: in the two-account state c4wLedger with
ASSET account A at balance 5, the group c4wEntries is rejected with
InsufficientBalanceError on A, which only one entry touches; the ASSET
invariant still holds afterwards and As balance is unchanged. -/
theorem c4_witness :
    assetInv c4wLedger ∧
    assetInv (createTransaction c4wLedger "k" "r" "d" c4wEntries 3).2 ∧
    createTransaction c4wLedger "k" "r" "d" c4wEntries 3 =
      (.error (.insufficientBalance "A"),
        (createTransaction c4wLedger "k" "r" "d" c4wEntries 3).2) ∧
    ((c4wEntries.map (fun e => e.accountId)).count "A" ≤ 1) ∧
    mapGet (createTransaction c4wLedger "k" "r" "d" c4wEntries 3).2.accounts "A" =
      mapGet c4wLedger.accounts "A" := by
  have hinv : assetInv c4wLedger := by
    intro p hp ht
    simp only [c4wLedger, twoAccountLedger, usdAccount, List.mem_cons,
      List.mem_singleton] at hp
    rcases hp with rfl | rfl | h
    · norm_num
    · norm_num
    · simp at h
  have heq : createTransaction c4wLedger "k" "r" "d" c4wEntries 3 =
      (.error (.insufficientBalance "A"),
        (createTransaction c4wLedger "k" "r" "d" c4wEntries 3).2) := by
    norm_num +decide [createTransaction, createTransactionFresh, c4wLedger,
      twoAccountLedger, usdAccount, c4wEntries, mapGet, mapSet, mapDelete, uniqueFirst,
      lockAll, unlockAll, totalDebits, totalCredits, findMissing, applyEntries,
      applyStep, mkLedgerEntry, entryDelta, shouldIncreaseBalance]
  have hcount : (c4wEntries.map (fun e => e.accountId)).count "A" ≤ 1 := by
    decide
  obtain ⟨h1, h2⟩ := c4_amended c4wLedger "k" "r" "d" c4wEntries 3 hinv
  exact ⟨hinv, h1, heq, hcount, h2 "A" _ heq hcount⟩

/-- Claim C5 (counterexample): the balanced group c5Entries, DEBIT 10 then
CREDIT 5 on ASSET account A plus CREDIT 5 on LIABILITY account B, posts
successfully as lid-0 (COMPLETED).  Reversing that COMPLETED transaction,
with no intervening postings, does not post a mirror entry set: the first
flipped entry would drive A to -5, so reverseTransaction throws
InsufficientBalanceError, the original stays COMPLETED (never marked
REVERSED), and As balance remains 5 instead of returning to its pre-posting
value 0. -/
theorem c5_counterexample :
    (mapGet (createTransaction c5Ledger "k" "r" "d" c5Entries 3).2.transactions
      "lid-0").map (fun t => t.status) = some .COMPLETED ∧
    (reverseTransaction (createTransaction c5Ledger "k" "r" "d" c5Entries 3).2
      "lid-0" "why" 9).1 = .error (.insufficientBalance "A") ∧
    (mapGet (reverseTransaction (createTransaction c5Ledger "k" "r" "d" c5Entries 3).2
      "lid-0" "why" 9).2.transactions "lid-0").map (fun t => t.status) =
      some .COMPLETED ∧
    (mapGet (reverseTransaction (createTransaction c5Ledger "k" "r" "d" c5Entries 3).2
      "lid-0" "why" 9).2.accounts "A").map (fun a => a.balance) = some 5 ∧
    (mapGet c5Ledger.accounts "A").map (fun a => a.balance) = some 0 := by
  norm_num +decide [createTransaction, createTransactionFresh, reverseTransaction,
    c5Ledger, twoAccountLedger, usdAccount, c5Entries, mapGet, mapSet, mapDelete,
    uniqueFirst, lockAll, unlockAll, totalDebits, totalCredits, findMissing,
    applyEntries, applyStep, mkLedgerEntry, entryDelta, shouldIncreaseBalance,
    flipType, reversalKey]

/-- Witness for the amended claim C5: posting the distinct-account group
c5wEntries from c5Ledger yields the COMPLETED transaction lid-0; the amended
theorem applies, so its reversal posts the mirror set, restores the balances
of A and B, marks lid-0 REVERSED, and a second reversal fails with
AlreadyReversedError. -/
theorem c5_witness :
    assetInv c5Ledger ∧
    mapGet c5Ledger.idempotencyKeys "k" = none ∧
    (c5wEntries.map (fun e => e.accountId)).Nodup ∧
    createTransaction c5Ledger "k" "r" "d" c5wEntries 3 = (.ok c5wTx, c5wS1) ∧
    mapGet c5wS1.idempotencyKeys (reversalKey c5wTx.id 9) = none ∧
    (∃ rtx s2, reverseTransaction c5wS1 c5wTx.id "why" 9 = (.ok rtx, s2) ∧
      rtx.entries.map inputOfEntry = c5wEntries.map flipEntryInput ∧
      (∀ aid ∈ c5wEntries.map (fun e => e.accountId),
        (mapGet s2.accounts aid).map (fun a => a.balance) =
          (mapGet c5Ledger.accounts aid).map (fun a => a.balance)) ∧
      (mapGet s2.transactions c5wTx.id).map (fun t => t.status) = some .REVERSED ∧
      (∀ reason2 now3, reverseTransaction s2 c5wTx.id reason2 now3 =
        (.error .alreadyReversed, s2))) := by
  have hinv : assetInv c5Ledger := by
    intro p hp ht
    simp only [c5Ledger, twoAccountLedger, usdAccount, List.mem_cons,
      List.mem_singleton] at hp
    rcases hp with rfl | rfl | h
    · norm_num
    · norm_num
    · simp at h
  have hfresh : mapGet c5Ledger.idempotencyKeys "k" = none := rfl
  have hnd : (c5wEntries.map (fun e => e.accountId)).Nodup := by decide
  have hpost : createTransaction c5Ledger "k" "r" "d" c5wEntries 3 =
      (.ok c5wTx, c5wS1) := by
    norm_num +decide [createTransaction, createTransactionFresh, c5Ledger,
      twoAccountLedger, usdAccount, c5wEntries, mapGet, mapSet, mapDelete, uniqueFirst,
      lockAll, unlockAll, totalDebits, totalCredits, findMissing, applyEntries,
      applyStep, mkLedgerEntry, entryDelta, shouldIncreaseBalance, c5wTx, c5wS1,
      freshLedgerId_0, freshLedgerId_1, freshLedgerId_2]
  have hrk : mapGet c5wS1.idempotencyKeys (reversalKey c5wTx.id 9) = none := by
    norm_num +decide [c5wS1, c5wTx, mapGet, reversalKey]
  exact ⟨hinv, hfresh, hnd, hpost, hrk,
    c5_amended c5Ledger "k" "r" "d" "why" c5wEntries 3 9 c5wTx c5wS1
      hinv hfresh hnd hpost hrk⟩

/-- Witness for claim C3: in c3Engine the wallet-1 lock is held by other-tx,
yet releaseLocks of transaction p1 deletes it, and a successful cancel of the
PENDING p1 likewise leaves no lock at wallet-1. -/
theorem c3_witness :
    mapGet c3Engine.locks "wallet-1" = some c3OtherLock ∧
    c3OtherLock.transactionId ≠ "p1" ∧
    jsWalletId c10PendingTx.fromWalletId = some 1 ∧
    mapGet (releaseLocks c10PendingTx c3Engine).locks (walletKey 1) = none ∧
    mapGet c3Engine.transactions "p1" = some c10PendingTx ∧
    cancel "p1" 7 2 c3Engine =
      (.ok c3CancelledTx, releaseLocks c3CancelledTx (setTx c3Engine c3CancelledTx)) ∧
    mapGet (releaseLocks c3CancelledTx (setTx c3Engine c3CancelledTx)).locks
      (walletKey 1) = none := by
  have h1 : mapGet c3Engine.locks "wallet-1" = some c3OtherLock := by
    norm_num +decide [c3Engine, demoEngine, mapGet]
  have h2 : c3OtherLock.transactionId ≠ "p1" := by decide
  have h3 : jsWalletId c10PendingTx.fromWalletId = some 1 := by decide
  have h5 : mapGet c3Engine.transactions "p1" = some c10PendingTx := by
    norm_num +decide [c3Engine, demoEngine, mapGet, c10PendingTx, storedTx]
  have h6 : cancel "p1" 7 2 c3Engine =
      (.ok c3CancelledTx, releaseLocks c3CancelledTx (setTx c3Engine c3CancelledTx)) := by
    norm_num +decide [cancel, c3Engine, demoEngine, mapGet, c10PendingTx, storedTx,
      c3CancelledTx]
  refine ⟨h1, h2, h3, c3_releaseLocks_unconditional.1 c3Engine c10PendingTx 1 h3,
    h5, h6, ?_⟩
  exact c3_releaseLocks_unconditional.2.2 c3Engine "p1" 7 2 c10PendingTx
    c3CancelledTx (releaseLocks c3CancelledTx (setTx c3Engine c3CancelledTx)) 1 h5 h6 h3

/-- Witness for claim C6: creating the withdrawal under key k1 from the
initial engine state stores tx-0 and enqueues it; the second create call
with the same dto returns the same transaction object and leaves the state
(including the queue) exactly as it was. -/
theorem c6_witness :
    create (withdrawalDto "k1") 7 0 demoEngine = (.ok c6Tx, c2E1) ∧
    create (withdrawalDto "k1") 7 5 c2E1 = (.ok c6Tx, c2E1) := by
  have h : create (withdrawalDto "k1") 7 0 demoEngine = (.ok c6Tx, c2E1) := by
    norm_num +decide [create, createFresh, validateTransaction, demoEngine, demoWallet,
      withdrawalDto, emptyLedgerState, mapGet, mapSet, findWallet, jsWalletId,
      freshTxId_0, c6Tx, c2Tx, c2E1]
  exact ⟨h, c6_create_idempotent (withdrawalDto "k1") 7 0 5 demoEngine c2E1 c6Tx h⟩

/-- Witness for claim C7: transaction t1 of the unsupported type FEE is
PENDING in c7Engine; the guarded region acquires the wallet-1 lock and then
throws, and processTransaction returns normally with t1 FAILED, the error
message captured, and the wallet-1 lock released. -/
theorem c7_witness :
    mapGet c7Engine.transactions "t1" = some c7PendingTx ∧
    c7PendingTx.status = .PENDING ∧
    processCore c7ProcessingTx 1 (setTx c7Engine c7ProcessingTx) =
      (some .unsupportedType, c7CoreState) ∧
    (∃ tx2 s3, processTransaction "t1" 1 c7Engine = (.ok tx2, s3) ∧
      tx2.status = .FAILED ∧
      tx2.errorMessage = some (errMessage .unsupportedType) ∧
      (∀ fw, jsWalletId c7PendingTx.fromWalletId = some fw →
        mapGet s3.locks (walletKey fw) = none) ∧
      (∀ tw, jsWalletId c7PendingTx.toWalletId = some tw →
        mapGet s3.locks (walletKey tw) = none)) := by
  have h1 : mapGet c7Engine.transactions "t1" = some c7PendingTx := by
    norm_num +decide [c7Engine, demoEngine, mapGet]
  have h2 : c7PendingTx.status = .PENDING := rfl
  have h3 : processCore c7ProcessingTx 1 (setTx c7Engine c7ProcessingTx) =
      (some .unsupportedType, c7CoreState) := by
    norm_num +decide [processCore, acquireLocks, dispatchHandler, setTx, c7Engine,
      c7ProcessingTx, c7PendingTx, c7CoreState, storedTx, demoEngine, demoWallet,
      emptyLedgerState, mapGet, mapSet, jsWalletId, walletKey_1]
  exact ⟨h1, h2, h3,
    (c7_process_failure_handling c7Engine "t1" 1 c7PendingTx h1 h2).1
      .unsupportedType c7CoreState h3⟩

/-- Witness for claim C8: transaction t1 in c8Engine is COMPLETED, and
processTransaction returns it unchanged together with the unchanged state. -/
theorem c8_witness :
    mapGet c8Engine.transactions "t1" = some c8Tx ∧
    c8Tx.status ≠ .PENDING ∧
    processTransaction "t1" 4 c8Engine = (.ok c8Tx, c8Engine) := by
  have h1 : mapGet c8Engine.transactions "t1" = some c8Tx := by
    norm_num +decide [c8Engine, demoEngine, mapGet]
  have h2 : c8Tx.status ≠ .PENDING := by decide
  exact ⟨h1, h2, c8_process_nonpending_noop c8Engine "t1" 4 c8Tx h1 h2⟩

/-- Witness for claim C9: a withdrawal of 500 USD from wallet 1 with balance
100 under a fresh idempotency key is rejected with InsufficientBalanceError
and the engine state, including the queue, is unchanged. -/
theorem c9_witness :
    mapGet c9Engine.idempotencyKeys c9Dto.idempotencyKey = none ∧
    0 < c9Dto.amount ∧
    jsWalletId c9Dto.fromWalletId = some 1 ∧
    findWallet c9Engine.wallets 1 = some c9Wallet ∧
    c9Wallet.userId = 7 ∧
    c9Wallet.balance < c9Dto.amount + c9Dto.fee.getD 0 ∧
    create c9Dto 7 0 c9Engine = (.error .insufficientBalance, c9Engine) := by
  have h1 : mapGet c9Engine.idempotencyKeys c9Dto.idempotencyKey = none := rfl
  have h2 : 0 < c9Dto.amount := by norm_num [c9Dto, withdrawalDto]
  have h3 : jsWalletId c9Dto.fromWalletId = some 1 := by decide
  have h4 : findWallet c9Engine.wallets 1 = some c9Wallet := by
    norm_num +decide [c9Engine, demoEngine, c9Wallet, demoWallet, findWallet]
  have h5 : c9Wallet.userId = 7 := rfl
  have h6 : c9Wallet.balance < c9Dto.amount + c9Dto.fee.getD 0 := by
    norm_num [c9Wallet, demoWallet, c9Dto, withdrawalDto]
  exact ⟨h1, h2, h3, h4, h5, h6,
    c9_create_insufficient_rejected c9Dto 7 0 c9Engine 1 c9Wallet h1 h2 h3 h4 h5 h6⟩

/-- Witness for claim C10: in c10Engine, cancelling the PENDING p1 as its
owner succeeds, marking it CANCELLED with cancelledAt set, while cancelling
the COMPLETED c1 fails with InvalidStateTransitionError and leaves the state
unchanged. -/
theorem c10_witness :
    mapGet c10Engine.transactions "p1" = some c10PendingTx ∧
    mapGet c10Engine.transactions "c1" = some c10CompletedTx ∧
    cancel "p1" 7 5 c10Engine =
      (.ok c10CancelledTx,
        releaseLocks c10CancelledTx (setTx c10Engine c10CancelledTx)) ∧
    c10CancelledTx.status = .CANCELLED ∧
    c10CancelledTx.cancelledAt = some 5 ∧
    cancel "c1" 7 5 c10Engine =
      (.error (.invalidStateTransition .COMPLETED), c10Engine) := by
  have h1 : mapGet c10Engine.transactions "p1" = some c10PendingTx := by
    norm_num +decide [c10Engine, demoEngine, mapGet]
  have h2 : mapGet c10Engine.transactions "c1" = some c10CompletedTx := by
    norm_num +decide [c10Engine, demoEngine, mapGet]
  have t1 := (c10_cancel_spec c10Engine "p1" 7 5 c10PendingTx h1).1 rfl rfl
  have t2 := (c10_cancel_spec c10Engine "c1" 7 5 c10CompletedTx h2).2.1 rfl (by decide)
  exact ⟨h1, h2, t1, rfl, rfl, t2⟩

end Fintech
